import Mathlib

/-!
Verification of the Day 19 "Blueprint Optimizer" (robot-factory branch-and-bound)
from `src/Day 19/solution.py`, against its natural-language specification.

The Python code is shallowly embedded below.  Python integers become `ℤ`
(parsed blueprint values, being digit strings, become `ℕ` and are coerced);
the four-element resource/robot lists become the four-field record `Vec4`;
the robot indices `Solver.ORE = 0`, … , `Solver.GEODE = 3` become the
enumeration `RobKind`.  The mutable `robots` list that
`solve` increments and decrements in place is threaded explicitly: the embedded
`solve` returns the pair (value, robots-state-on-return), exactly mirroring the
mutation discipline of the source.

One wait computation, two embeddings: the source computes
`time_taken = math.ceil(max(0, *((cost - resource) / robot ...)))` with Python
float (binary64) division.  `floatTimeTaken` models that computation exactly
(CPython's int/int true division returns the correctly rounded binary64 of the
exact quotient; round to nearest, ties to even), and `solveF` / `ReachableF`
are the search and its call-state relation with that wait — the faithful
embedding, which the termination and reachable-state results below concern.
`timeTaken` / `solve` idealise the wait as the exact integer ceiling; the two
wait counts agree whenever every quotient rounds to its exact value (in
particular on puzzle-scale inputs) and are proved to differ on large cost
values.  The exact-wait `solve` is used for the results in which the wait value
plays no role (the robots-restoration frame property, the driver aggregation
identities, inputs on which the search commits no build) and for the
exact-arithmetic reference development at the end of the file.
-/

set_option maxRecDepth 20000
set_option maxHeartbeats 4000000

namespace Day19

/-- The four resource / robot kinds, `ORE = 0`, `CLAY = 1`, `OBSIDIAN = 2`,
`GEODE = 3` in the source. -/
inductive RobKind where
  | ore
  | clay
  | obsidian
  | geode
deriving DecidableEq, Repr

/-- A four-component integer vector: a resource stock, a robot-count vector, or
one robot's cost row (`resources`, `robots`, `robot_costs[i]` in the source are
4-element lists indexed by kind). -/
structure Vec4 where
  ore : ℤ
  clay : ℤ
  obsidian : ℤ
  geode : ℤ
deriving DecidableEq, Repr

/-- Component of a `Vec4` at a kind (list indexing `v[k]` in the source). -/
def Vec4.comp (v : Vec4) : RobKind → ℤ
  | .ore => v.ore
  | .clay => v.clay
  | .obsidian => v.obsidian
  | .geode => v.geode

/-- Increment one component (`robots[target_robot] += 1` in the source). -/
def Vec4.bump (v : Vec4) : RobKind → Vec4
  | .ore => { v with ore := v.ore + 1 }
  | .clay => { v with clay := v.clay + 1 }
  | .obsidian => { v with obsidian := v.obsidian + 1 }
  | .geode => { v with geode := v.geode + 1 }

/-- Decrement one component (`robots[target_robot] -= 1` in the source). -/
def Vec4.debump (v : Vec4) : RobKind → Vec4
  | .ore => { v with ore := v.ore - 1 }
  | .clay => { v with clay := v.clay - 1 }
  | .obsidian => { v with obsidian := v.obsidian - 1 }
  | .geode => { v with geode := v.geode - 1 }

/-- The parsed robot-cost table: one cost row (a `Vec4`) per robot kind.
Mirrors the list of four 4-element lists returned by `get_robot_costs`. -/
structure Blueprint where
  oreRobot : Vec4
  clayRobot : Vec4
  obsidianRobot : Vec4
  geodeRobot : Vec4
deriving DecidableEq, Repr

/-- Source `get_robot_costs`: build the cost table from the six parsed values
`robot_values[0] .. robot_values[5]`.  The parsed values are decimal digit
strings, hence natural numbers. -/
def getRobotCosts (v0 v1 v2 v3 v4 v5 : ℕ) : Blueprint where
  oreRobot := ⟨(v0 : ℤ), 0, 0, 0⟩
  clayRobot := ⟨(v1 : ℤ), 0, 0, 0⟩
  obsidianRobot := ⟨(v2 : ℤ), (v3 : ℤ), 0, 0⟩
  geodeRobot := ⟨(v4 : ℤ), 0, (v5 : ℤ), 0⟩

/-- Source `robot_costs[target_robot]`: the cost row of one robot kind. -/
def Blueprint.costRow (bp : Blueprint) : RobKind → Vec4
  | .ore => bp.oreRobot
  | .clay => bp.clayRobot
  | .obsidian => bp.obsidianRobot
  | .geode => bp.geodeRobot

/-- Source `max_ore`: maximum of the ore column of the cost table
(`max(resource) for resource in zip(*robot_costs)`, first column). -/
def Blueprint.maxOre (bp : Blueprint) : ℤ :=
  max (max (max bp.oreRobot.ore bp.clayRobot.ore) bp.obsidianRobot.ore)
    bp.geodeRobot.ore

/-- Source `max_clay`: maximum of the clay column of the cost table. -/
def Blueprint.maxClay (bp : Blueprint) : ℤ :=
  max (max (max bp.oreRobot.clay bp.clayRobot.clay) bp.obsidianRobot.clay)
    bp.geodeRobot.clay

/-- Source `max_obsidian`: maximum of the obsidian column of the cost table. -/
def Blueprint.maxObsidian (bp : Blueprint) : ℤ :=
  max (max (max bp.oreRobot.obsidian bp.clayRobot.obsidian)
      bp.obsidianRobot.obsidian)
    bp.geodeRobot.obsidian

/-- Source `can_get_resource_in_time`: `resources[r] + (time - 1) * robots[r] >=
robot_costs[target_robot][r]`. -/
def canGetResourceInTime (bp : Blueprint) (time : ℤ) (res : Vec4)
    (r : RobKind) (rob : Vec4) (target : RobKind) : Bool :=
  decide (res.comp r + (time - 1) * rob.comp r ≥ (bp.costRow target).comp r)

/-- Source `can_build_in_time`: the ore requirement is always checked; the clay
requirement only for an obsidian robot; the obsidian requirement only for a
geode robot. -/
def canBuildInTime (bp : Blueprint) (time : ℤ) (res : Vec4) (rob : Vec4)
    (target : RobKind) : Bool :=
  if ¬ canGetResourceInTime bp time res .ore rob target then false
  else if target = .obsidian then canGetResourceInTime bp time res .clay rob target
  else if target = .geode then canGetResourceInTime bp time res .obsidian rob target
  else true

/-- The optimistic upper bound `max_possible_geode = resources[GEODE] +
robots[GEODE] * time + (time - 1) * time // 2` from `should_not_build`.
Lean's `/` on `ℤ` agrees with Python's floor division `//` for the positive
divisor `2`. -/
def maxPossibleGeode (res rob : Vec4) (time : ℤ) : ℤ :=
  res.geode + rob.geode * time + (time - 1) * time / 2

/-- Source `should_not_build`: the chain of early-exit pruning tests, ending in the
branch-and-bound test `max_possible_geode <= current_geode_max`. -/
def shouldNotBuild (bp : Blueprint) (time : ℤ) (res rob : Vec4)
    (target : RobKind) (cur : ℤ) : Bool :=
  if time ≤ 0 then true
  else if target = .ore ∧ rob.ore ≥ bp.maxOre then true
  else if target = .clay ∧ rob.clay ≥ bp.maxClay then true
  else if target = .obsidian ∧ (rob.obsidian ≥ bp.maxObsidian ∨ rob.clay = 0) then true
  else if target = .geode ∧ rob.obsidian = 0 then true
  else decide (maxPossibleGeode res rob time ≤ cur)

/-- Exact ceiling of the integer fraction `a / b` (for `b > 0`): `⌈a/b⌉ =
-⌊-a/b⌋`, where `/` on `ℤ` rounds like Python's floor division `//` for a
positive divisor. -/
def ceilDiv (a b : ℤ) : ℤ := -(-a / b)

/-- One element of the `time_taken` generator: the exact ceiling of
`(cost - resource) / robot` when this kind's robot count is positive, else
`0`. -/
def waitElem (bp : Blueprint) (res rob : Vec4) (target r : RobKind) : ℤ :=
  if rob.comp r > 0
  then ceilDiv ((bp.costRow target).comp r - res.comp r) (rob.comp r)
  else 0

/-- Source `time_taken = math.ceil(max(0, *((cost - resource) / robot if robot > 0
else 0 for ...)))`, in exact integer arithmetic: the ceiling is taken per
component rather than after the maximum, which is the same number since the
ceiling function is monotone and fixes `0`.  `timeTakenRat` below is the
literal form (exact rational division, one ceiling around the maximum) and is
proved equal; the source's binary64 evaluation of the division is modelled by
`floatTimeTaken`. -/
def timeTaken (bp : Blueprint) (res rob : Vec4) (target : RobKind) : ℤ :=
  max (max (max (max (0 : ℤ) (waitElem bp res rob target .ore))
        (waitElem bp res rob target .clay))
      (waitElem bp res rob target .obsidian))
    (waitElem bp res rob target .geode)

/-- The literal reading of the source's `time_taken` expression with the
divisions taken exactly over `ℚ`: elementwise exact division, one maximum,
one ceiling. -/
def timeTakenRat (bp : Blueprint) (res rob : Vec4) (target : RobKind) : ℤ :=
  let elem : RobKind → ℚ := fun r =>
    if rob.comp r > 0
    then (((bp.costRow target).comp r - res.comp r : ℤ) : ℚ) / ((rob.comp r : ℤ) : ℚ)
    else 0
  ⌈max (max (max (max (0 : ℚ) (elem .ore)) (elem .clay)) (elem .obsidian))
      (elem .geode)⌉

/-- Source `new_resources`: componentwise `resource + robot * (time_taken + 1) - cost`
(production over the waiting ticks and the build tick, minus the committed
cost; computed with the robot counts from before the increment). -/
def advance (res rob costRow : Vec4) (ticks : ℤ) : Vec4 where
  ore := res.ore + rob.ore * ticks - costRow.ore
  clay := res.clay + rob.clay * ticks - costRow.clay
  obsidian := res.obsidian + rob.obsidian * ticks - costRow.obsidian
  geode := res.geode + rob.geode * ticks - costRow.geode

/-- The recursive search `solve`.  The first argument is structural fuel: the
source recursion terminates because the remaining time strictly decreases, and
every call below keeps `time < fuel`, so the fuel branch is never taken on the
calls the program performs.  The result pairs the returned value with the state
of the shared `robots` list on return (the source mutates `robots` in place
around the recursive calls and hands the same list to each child in turn).
The wait count used here is the exact-ceiling idealisation `timeTaken`;
`solveF` below is the same search with the wait computed as the source
computes it (`floatTimeTaken`). -/
def solve (bp : Blueprint) : ℕ → ℤ → Vec4 → Vec4 → RobKind → ℤ → ℤ × Vec4
  | 0, _, res, rob, _, _ => (res.geode, rob)
  | fuel + 1, time, res, rob, target, cur =>
    if shouldNotBuild bp time res rob target cur then (res.geode, rob)
    else if ¬ canBuildInTime bp time res rob target then
      (res.geode + time * rob.geode, rob)
    else
      let tt := timeTaken bp res rob target
      let time1 := time - (tt + 1)
      let newRes := advance res rob (bp.costRow target) (tt + 1)
      let rob0 := rob.bump target
      let p1 := solve bp fuel time1 newRes rob0 .ore cur
      let cur1 := max cur p1.1
      let p2 := solve bp fuel time1 newRes p1.2 .clay cur1
      let cur2 := max cur1 p2.1
      let p3 := solve bp fuel time1 newRes p2.2 .obsidian cur2
      let cur3 := max cur2 p3.1
      let p4 := solve bp fuel time1 newRes p3.2 .geode cur3
      let cur4 := max cur3 p4.1
      (cur4, p4.2.debump target)

/-- The driver loop at the end of `get_maximum_geode`: `result = 0`, then for
each of the four kinds `result = max(result, solve(time, [0,0,0,0],
[1,0,0,0], target_robot, result))`. -/
def getMaximumGeodeNums (bp : Blueprint) (time : ℤ) : ℤ :=
  let fuel := time.toNat + 1
  let r1 := max 0 (solve bp fuel time ⟨0, 0, 0, 0⟩ ⟨1, 0, 0, 0⟩ .ore 0).1
  let r2 := max r1 (solve bp fuel time ⟨0, 0, 0, 0⟩ ⟨1, 0, 0, 0⟩ .clay r1).1
  let r3 := max r2 (solve bp fuel time ⟨0, 0, 0, 0⟩ ⟨1, 0, 0, 0⟩ .obsidian r2).1
  let r4 := max r3 (solve bp fuel time ⟨0, 0, 0, 0⟩ ⟨1, 0, 0, 0⟩ .geode r3).1
  r4

/-- One step of `re.findall(r"\d+", line)` followed by `int(...)`: collect the
maximal runs of decimal digits of the character list as natural numbers.  The
accumulator holds the value of the digit run currently being read, if any. -/
def digitRunsAux : List Char → Option ℕ → List ℕ
  | [], none => []
  | [], some n => [n]
  | c :: cs, none =>
    if c.isDigit then digitRunsAux cs (some (c.toNat - '0'.toNat))
    else digitRunsAux cs none
  | c :: cs, some n =>
    if c.isDigit then digitRunsAux cs (some (10 * n + (c.toNat - '0'.toNat)))
    else n :: digitRunsAux cs none

/-- All integers appearing in a line (`int(num) for num in
re.findall(r"\d+", line)`). -/
def extractNats (line : String) : List ℕ :=
  digitRunsAux line.toList none

/-- A parsed blueprint line: the id and the six cost values
(`blueprint_id, *robot_values = ...` and `robot_values[0..5]`). -/
structure ParsedBlueprint where
  id : ℕ
  v0 : ℕ
  v1 : ℕ
  v2 : ℕ
  v3 : ℕ
  v4 : ℕ
  v5 : ℕ
deriving DecidableEq, Repr

/-- The destructuring `blueprint_id, *robot_values = (int(num) for num in
re.findall(...))` followed by the six index accesses of `get_robot_costs`:
fails (`ValueError` on an empty unpack, `IndexError` on a short list, both
modelled by `none`) unless the line holds at least seven numbers; any further
numbers are ignored. -/
def parseLine (line : String) : Option ParsedBlueprint :=
  match extractNats line with
  | bid :: v0 :: v1 :: v2 :: v3 :: v4 :: v5 :: _ =>
    some ⟨bid, v0, v1, v2, v3, v4, v5⟩
  | _ => none

/-- The cost table of a parsed line. -/
def ParsedBlueprint.costs (b : ParsedBlueprint) : Blueprint :=
  getRobotCosts b.v0 b.v1 b.v2 b.v3 b.v4 b.v5

/-- Source `get_maximum_geode(line, time)`.  The empty line short-circuits to
`(0, 1)`; otherwise the line is parsed and the search runs. -/
def getMaximumGeode (line : String) (time : ℤ) : Option (ℕ × ℤ) :=
  if line = "" then some (0, 1)
  else (parseLine line).map fun b =>
    (b.id, getMaximumGeodeNums b.costs time)

/-- The per-line term of `part_1`: `math.prod(self.get_maximum_geode(line=line,
time=24))`, i.e. blueprint id times maximum geode count at time 24. -/
def part1Contribution (line : String) : Option ℤ :=
  (getMaximumGeode line 24).map fun p => (p.1 : ℤ) * p.2

/-- The per-line factor of `part_2`: the geode count of
`get_maximum_geode(line, time=32)`. -/
def geodeCount32 (line : String) : Option ℤ :=
  (getMaximumGeode line 32).map fun p => p.2

/-- Source `part_1`: the sum of `math.prod(get_maximum_geode(line, 24))` over the
lines of the input file. -/
def part1 (lines : List String) : Option ℤ :=
  (lines.mapM part1Contribution).map List.sum

/-- Source `part_2`: the product of the geode counts at time 32 of the first three
`file.readline()` results; `readline` past the end of the file returns `""`,
modelled by the default value of `List.getD`. -/
def part2 (lines : List String) : Option ℤ := do
  let a ← geodeCount32 (lines.getD 0 "")
  let b ← geodeCount32 (lines.getD 1 "")
  let c ← geodeCount32 (lines.getD 2 "")
  pure (a * b * c)

/-- The spec's formula for part 1 over the parsed blueprints: the sum of
`blueprint.id * maximize_geodes(blueprint, 24)`. -/
def part1Spec (bps : List ParsedBlueprint) : ℤ :=
  (bps.map fun b => (b.id : ℤ) * getMaximumGeodeNums b.costs 24).sum

/-- The spec's formula for part 2 over the parsed blueprints: the product of
`maximize_geodes(blueprint, 32)` over the first three blueprints only. -/
def part2Spec (bps : List ParsedBlueprint) : ℤ :=
  ((bps.take 3).map fun b => getMaximumGeodeNums b.costs 32).prod

/-- Componentwise vector sum (one tick of production credits each owned robot's
output). -/
def Vec4.add (a b : Vec4) : Vec4 :=
  ⟨a.ore + b.ore, a.clay + b.clay, a.obsidian + b.obsidian, a.geode + b.geode⟩

/-- Componentwise vector difference (paying a cost vector). -/
def Vec4.sub (a b : Vec4) : Vec4 :=
  ⟨a.ore - b.ore, a.clay - b.clay, a.obsidian - b.obsidian, a.geode - b.geode⟩

/-- A cost vector is affordable from the current stock: every component of the
cost is covered. -/
def affordable (res cost : Vec4) : Bool :=
  decide (cost.ore ≤ res.ore ∧ cost.clay ≤ res.clay ∧
    cost.obsidian ≤ res.obsidian ∧ cost.geode ≤ res.geode)

/-- The specification side of claim C1: the pruning-free reference simulation
of the production model stated in the spec (one tick at a time; each tick the
player either stockpiles or starts one currently affordable producer, paying
its cost at the commit; every producer owned at the start of the tick yields
one unit at the end of the tick, so a producer started this tick produces only
from the following tick).  Returns the maximum geode stock reachable when the
time runs out, maximised over all schedules. -/
def specMaxGeodes (bp : Blueprint) : ℕ → Vec4 → Vec4 → ℤ
  | 0, res, _ => res.geode
  | t + 1, res, rob =>
    let stay := specMaxGeodes bp t (res.add rob) rob
    let build : RobKind → ℤ := fun k =>
      if affordable res (bp.costRow k)
      then specMaxGeodes bp t ((res.sub (bp.costRow k)).add rob) (rob.bump k)
      else stay
    max (max (max (max stay (build .ore)) (build .clay)) (build .obsidian))
      (build .geode)

/-- The reference simulation from the spec's initial state: one ore producer,
no resources. -/
def specMaxFromStart (bp : Blueprint) (t : ℕ) : ℤ :=
  specMaxGeodes bp t ⟨0, 0, 0, 0⟩ ⟨1, 0, 0, 0⟩

/-- The guard on the build branch of `solve`: a call commits to building its
target robot (possibly after waiting) exactly when neither early return fires,
i.e. `should_not_build` is false and `can_build_in_time` is true. -/
def entersBuildBranch (bp : Blueprint) (time : ℤ) (res rob : Vec4)
    (target : RobKind) (cur : ℤ) : Bool :=
  !shouldNotBuild bp time res rob target cur && canBuildInTime bp time res rob target

/-- Fuel-driven base-two logarithm step (`n` halves until it drops below 2);
the fuel lets it reduce inside the kernel. -/
def floorLog2Aux : ℕ → ℕ → ℕ
  | 0, _ => 0
  | f + 1, n => if 2 ≤ n then floorLog2Aux f (n / 2) + 1 else 0

/-- Base-two logarithm: for `1 ≤ n`, the unique `k` with `2 ^ k ≤ n < 2 ^ (k + 1)`
(`n` itself is always enough fuel). -/
def floorLog2 (n : ℕ) : ℕ := floorLog2Aux n n

/-- Two to an integer power, as a rational. -/
def pow2 (e : ℤ) : ℚ :=
  if 0 ≤ e then ((2 ^ e.toNat : ℕ) : ℚ) else mkRat 1 (2 ^ (-e).toNat)

/-- The binade of a positive rational: the unique `e` with `2 ^ e ≤ q < 2 ^ (e + 1)`.
The bit lengths of numerator and denominator give `e` up to one, and the
remaining comparison settles it. -/
def binadeExp (q : ℚ) : ℤ :=
  let e0 : ℤ := (floorLog2 q.num.natAbs : ℤ) - (floorLog2 q.den : ℤ)
  if pow2 e0 ≤ q then e0 else e0 - 1

/-- Round a rational to the nearest integer, ties to the even integer. -/
def roundHalfEven (q : ℚ) : ℤ :=
  let fl := q.floor
  if q - (fl : ℚ) < mkRat 1 2 then fl
  else if mkRat 1 2 < q - (fl : ℚ) then fl + 1
  else if fl % 2 = 0 then fl else fl + 1

/-- Binary64 rounding of a positive rational in the normal range of doubles:
scale by the unit in the last place (52 fraction bits) and round to nearest,
ties to even. -/
def roundToF64Pos (q : ℚ) : ℚ :=
  let ulp : ℚ := pow2 (binadeExp q - 52)
  (roundHalfEven (q / ulp) : ℚ) * ulp

/-- Binary64 rounding (round to nearest, ties to even) of a rational whose
magnitude lies in the normal finite range of IEEE-754 doubles.  CPython's
int/int true division returns the correctly rounded double of the exact
quotient, so composing exact division with this rounding models the division
`(cost - resource) / robot` that the source performs in `time_taken` (for
operands in the normal range, which covers every value appearing below). -/
def roundToF64 (q : ℚ) : ℚ :=
  if q = 0 then 0
  else if q < 0 then -roundToF64Pos (-q)
  else roundToF64Pos q

/-- Python's two-argument `max`: keeps the first argument unless the second is
strictly greater. -/
def pymax (a b : ℚ) : ℚ := if a < b then b else a

/-- The source's `time_taken` computation as actually performed: each division
`(cost - resource) / robot` is a correctly rounded binary64 operation, the
maximum with `0` is exact, and `math.ceil` of a float is exact. -/
def floatTimeTaken (bp : Blueprint) (res rob : Vec4) (target : RobKind) : ℤ :=
  let elem : RobKind → ℚ := fun r =>
    if rob.comp r > 0
    then roundToF64
      ((((bp.costRow target).comp r - res.comp r : ℤ) : ℚ) / ((rob.comp r : ℤ) : ℚ))
    else 0
  (pymax (pymax (pymax (pymax 0 (elem .ore)) (elem .clay)) (elem .obsidian))
      (elem .geode)).ceil

/-- The recursive search `solve` with the wait count computed as the source
actually computes it: `floatTimeTaken`, i.e. `math.ceil` of a maximum of
correctly rounded binary64 divisions.  `solve` above idealises this wait as
the exact integer ceiling; the two searches coincide whenever every quotient
`(cost - resource) / robot` encountered rounds to its exact binary64 value (in
particular on puzzle-scale inputs).  This variant is the one the termination
and reachable-state analyses below are about. -/
def solveF (bp : Blueprint) : ℕ → ℤ → Vec4 → Vec4 → RobKind → ℤ → ℤ × Vec4
  | 0, _, res, rob, _, _ => (res.geode, rob)
  | fuel + 1, time, res, rob, target, cur =>
    if shouldNotBuild bp time res rob target cur then (res.geode, rob)
    else if ¬ canBuildInTime bp time res rob target then
      (res.geode + time * rob.geode, rob)
    else
      let tt := floatTimeTaken bp res rob target
      let time1 := time - (tt + 1)
      let newRes := advance res rob (bp.costRow target) (tt + 1)
      let rob0 := rob.bump target
      let p1 := solveF bp fuel time1 newRes rob0 .ore cur
      let cur1 := max cur p1.1
      let p2 := solveF bp fuel time1 newRes p1.2 .clay cur1
      let cur2 := max cur1 p2.1
      let p3 := solveF bp fuel time1 newRes p2.2 .obsidian cur2
      let cur3 := max cur2 p3.1
      let p4 := solveF bp fuel time1 newRes p3.2 .geode cur3
      let cur4 := max cur3 p4.1
      (cur4, p4.2.debump target)

/-- The states `(time, resources, robots)` at which the search can be invoked,
with the wait before each committed build computed as the source computes it
(`floatTimeTaken`), starting from the initial state of the driver loop
(`time_budget`, zero resources, one ore robot): a recursive call is made
exactly below a committed build, i.e. when `should_not_build` was false for
the pruning-bound value `cur` passed to the call and `can_build_in_time` was
true.  The value `cur` of a step is arbitrary here, so the relation collects
the call states over every value the threaded bound can take; the concrete
path exhibited below instantiates it with `0`, the value the driver passes to
its first call.  The `robots` vector the children receive is the shared
mutated list, which equals `rob.bump target` by the restoration property
`solveF_robots_unchanged` proved below. -/
inductive ReachableF (bp : Blueprint) (t0 : ℤ) : ℤ → Vec4 → Vec4 → Prop where
  | init : ReachableF bp t0 t0 ⟨0, 0, 0, 0⟩ ⟨1, 0, 0, 0⟩
  | step (time : ℤ) (res rob : Vec4) (target : RobKind) (cur : ℤ) :
      ReachableF bp t0 time res rob →
      shouldNotBuild bp time res rob target cur = false →
      canBuildInTime bp time res rob target = true →
      ReachableF bp t0
        (time - (floatTimeTaken bp res rob target + 1))
        (advance res rob (bp.costRow target) (floatTimeTaken bp res rob target + 1))
        (rob.bump target)

/-- Variant of `should_not_build` with the branch-and-bound test removed: only the early
time check and the structural prunings (caps and unreachable kinds) remain.
Used to relate the search to its pruning-free value. -/
def pureShouldNotBuild (bp : Blueprint) (time : ℤ) (res rob : Vec4)
    (target : RobKind) : Bool :=
  if time ≤ 0 then true
  else if target = .ore ∧ rob.ore ≥ bp.maxOre then true
  else if target = .clay ∧ rob.clay ≥ bp.maxClay then true
  else if target = .obsidian ∧ (rob.obsidian ≥ bp.maxObsidian ∨ rob.clay = 0) then true
  else if target = .geode ∧ rob.obsidian = 0 then true
  else false

/-- The value of the search without the best-so-far bound: the same branching
as `solve`, but no `current_geode_max` is threaded and no branch is abandoned
by the optimistic upper bound.  The branch-and-bound search returns the same
maximum (proved below), which reduces claims about `solve` to claims about
this pruning-free value. -/
def pureSolve (bp : Blueprint) : ℕ → ℤ → Vec4 → Vec4 → RobKind → ℤ
  | 0, _, res, _, _ => res.geode
  | fuel + 1, time, res, rob, target =>
    if pureShouldNotBuild bp time res rob target then res.geode
    else if ¬ canBuildInTime bp time res rob target then
      res.geode + time * rob.geode
    else
      let tt := timeTaken bp res rob target
      let time1 := time - (tt + 1)
      let newRes := advance res rob (bp.costRow target) (tt + 1)
      let rob0 := rob.bump target
      max (max (max (pureSolve bp fuel time1 newRes rob0 .ore)
            (pureSolve bp fuel time1 newRes rob0 .clay))
          (pureSolve bp fuel time1 newRes rob0 .obsidian))
        (pureSolve bp fuel time1 newRes rob0 .geode)

/-- Undoing a bump restores the vector (the source's `robots[target] += 1` /
`robots[target] -= 1` bracket). -/
theorem Vec4.debump_bump (v : Vec4) (k : RobKind) : (v.bump k).debump k = v := by
  cases k <;> simp [Vec4.bump, Vec4.debump]

/-- The search leaves the shared robot-counts state as it found it (helper
shared by several claims). -/
theorem solve_robots_unchanged (bp : Blueprint) :
    ∀ (fuel : ℕ) (time : ℤ) (res rob : Vec4) (target : RobKind) (cur : ℤ),
      (solve bp fuel time res rob target cur).2 = rob := by
  intro fuel
  induction fuel with
  | zero => intro time res rob target cur; rfl
  | succ f ih =>
    intro time res rob target cur
    rw [solve]
    split
    · rfl
    · split
      · rfl
      · simp only [ih]
        exact Vec4.debump_bump rob target

/-- C8: every recursive call of the search leaves the shared robot-counts
vector exactly as it found it: the tentative increment made to explore the
build branch is undone before the call returns, so producer counts are
non-decreasing along a search path and sibling branches observe the same
counts. -/
theorem day19_C8_robots_restored (bp : Blueprint) (fuel : ℕ) (time : ℤ)
    (res rob : Vec4) (target : RobKind) (cur : ℤ) :
    (solve bp fuel time res rob target cur).2 = rob :=
  solve_robots_unchanged bp fuel time res rob target cur

/-- The binary64-wait search restores the shared robot-counts state as well:
the restoration is structural (increment before the child loop, decrement
after) and does not depend on the wait values. -/
theorem solveF_robots_unchanged (bp : Blueprint) :
    ∀ (fuel : ℕ) (time : ℤ) (res rob : Vec4) (target : RobKind) (cur : ℤ),
      (solveF bp fuel time res rob target cur).2 = rob := by
  intro fuel
  induction fuel with
  | zero => intro time res rob target cur; rfl
  | succ f ih =>
    intro time res rob target cur
    rw [solveF]
    split
    · rfl
    · split
      · rfl
      · simp only [ih]
        exact Vec4.debump_bump rob target

/-- C10: for every time budget, the empty line yields the pair `(0, 1)`, which
contributes the summand `0 * 1 = 0` to part 1 and the factor `1` to part 2
instead of raising an error. -/
theorem day19_C10_empty_line :
    ∀ time : ℤ, getMaximumGeode "" time = some (0, 1) ∧
      part1Contribution "" = some 0 ∧ geodeCount32 "" = some 1 := by
  intro time
  refine ⟨?_, ?_, ?_⟩ <;>
    simp [getMaximumGeode, part1Contribution, geodeCount32]

/-- C1 (the failing input): on the non-negative blueprint with costs
ore robot 1 ore, clay robot 1 ore, obsidian robot 1 ore and 0 clay, geode robot
1 ore and 1 obsidian, with 5 ticks, the optimizer returns 0 geodes, while under
the spec's production model 1 geode is obtainable (build an obsidian robot at
tick 2, a geode robot at tick 4, and it produces during tick 5): the
`robots[CLAY] == 0` and max-rate prunings are unsound when a cost is zero, so
the search misses the optimum. -/
theorem day19_C1_code_misses_optimum :
    getMaximumGeode "Blueprint 1: Each ore robot costs 1 ore. Each clay robot costs 1 ore. Each obsidian robot costs 1 ore and 0 clay. Each geode robot costs 1 ore and 1 obsidian." 5 = some (1, 0) ∧
    specMaxFromStart (getRobotCosts 1 1 1 0 1 1) 5 = 1 := by
  constructor
  · decide
  · decide

/-- C3 (counterexample): the wait-ticks count is not computed exactly.  On the
non-negative blueprint whose ore robot costs `10 ^ 16 + 1` ore, the root call
of the search (which does enter the build branch for the ore target whenever
enough time remains, e.g. at `time = 2 * 10 ^ 16`) computes
`math.ceil((cost - resource) / robot)` through a binary64 division, which
rounds `10 ^ 16 + 1` down to `10 ^ 16`, one less than the exact ceiling. -/
theorem day19_C3_float_division_inexact :
    floatTimeTaken (getRobotCosts (10 ^ 16 + 1) 1 1 1 1 1) ⟨0, 0, 0, 0⟩
        ⟨1, 0, 0, 0⟩ .ore = 10 ^ 16 ∧
      timeTaken (getRobotCosts (10 ^ 16 + 1) 1 1 1 1 1) ⟨0, 0, 0, 0⟩
        ⟨1, 0, 0, 0⟩ .ore = 10 ^ 16 + 1 ∧
      entersBuildBranch (getRobotCosts (10 ^ 16 + 1) 1 1 1 1 1) (2 * 10 ^ 16)
        ⟨0, 0, 0, 0⟩ ⟨1, 0, 0, 0⟩ .ore 0 = true := by
  refine ⟨?_, by decide, by decide⟩
  with_unfolding_all decide

/-- C4 (counterexample): from the root state of the blueprint whose geode robot
costs nothing (costs 4, 2, 3, 14, 0, 0 — all non-negative), a geode robot is
affordable at once, yet the very first call of the driver loop (target ore,
best-so-far 0) passes both guards and commits to building an ore robot: the
search does explore non-geode builds from geode-affordable states, because no
greedy geode rule exists in the code. -/
theorem day19_C4_explores_nongeode_despite_affordable_geode :
    affordable ⟨0, 0, 0, 0⟩ ((getRobotCosts 4 2 3 14 0 0).costRow .geode) = true ∧
      entersBuildBranch (getRobotCosts 4 2 3 14 0 0) 24 ⟨0, 0, 0, 0⟩
        ⟨1, 0, 0, 0⟩ .ore 0 = true := by
  constructor <;> decide

/-- The divisor times the ceiling of a fraction covers the numerator. -/
theorem le_mul_ceilDiv {a b : ℤ} (hb : 0 < b) : a ≤ b * ceilDiv a b := by
  have hid : b * (-a / b) + -a % b = -a := Int.ediv_add_emod (-a) b
  have hm : 0 ≤ -a % b := Int.emod_nonneg _ (ne_of_gt hb)
  have he : b * ceilDiv a b = -(b * (-a / b)) := by rw [ceilDiv]; ring
  rw [he]
  linarith

/-- The ceiling of a fraction is at most any integer whose multiple covers the
numerator. -/
theorem ceilDiv_le {a b k : ℤ} (hb : 0 < b) (h : a ≤ k * b) : ceilDiv a b ≤ k := by
  have hid : b * (-a / b) + -a % b = -a := Int.ediv_add_emod (-a) b
  have hlt : -a % b < b := Int.emod_lt_of_pos _ hb
  have h1 : b * (-k) < b * (-a / b + 1) := by
    have e1 : b * (-a / b + 1) = b * (-a / b) + b := by ring
    have e2 : b * (-k) = -(k * b) := by ring
    rw [e1, e2]
    linarith
  have h2 : -k < -a / b + 1 := lt_of_mul_lt_mul_left h1 (le_of_lt hb)
  rw [ceilDiv]
  omega

/-- The shared bound for one `time_taken` element: affordability within `T`
ticks of production bounds the element by `T`. -/
theorem waitElemBound_le {c x p T : ℤ} (hT : 0 ≤ T) (hcb : c ≤ x + T * p) :
    (if p > 0 then ceilDiv (c - x) p else 0) ≤ T := by
  by_cases hp : p > 0
  · rw [if_pos hp]
    refine ceilDiv_le hp ?_
    have e : T * p = p * T := by ring
    linarith [hcb, e]
  · rw [if_neg hp]
    exact hT

/-- The produced stock over the waiting window stays non-negative: one
component of `new_resources` is non-negative provided the element bound held
and the component was affordable in time. -/
theorem advance_comp_nonneg {c x p tt T : ℤ} (hx : 0 ≤ x) (hp0 : 0 ≤ p)
    (hT : 0 ≤ T)
    (helem : (if p > 0 then ceilDiv (c - x) p else 0) ≤ tt)
    (hcb : c ≤ x + T * p) :
    0 ≤ x + p * (tt + 1) - c := by
  by_cases hp : p > 0
  · rw [if_pos hp] at helem
    have h1 : c - x ≤ p * ceilDiv (c - x) p := le_mul_ceilDiv hp
    have h2 : p * ceilDiv (c - x) p ≤ p * tt := by
      exact mul_le_mul_of_nonneg_left helem hp0
    have e : p * (tt + 1) = p * tt + p := by ring
    linarith
  · have hp0' : p = 0 := le_antisymm (not_lt.mp hp) hp0
    subst hp0'
    simp only [mul_comm, mul_zero, zero_mul] at hcb ⊢
    omega

/-- A zero-cost component of `new_resources` is non-negative. -/
theorem comp_nonneg0 {x p s : ℤ} (hx : 0 ≤ x) (hp : 0 ≤ p) (hs : 0 ≤ s) :
    0 ≤ x + p * s - 0 := by
  have := mul_nonneg hp hs
  omega

/-- The value `time_taken` is never negative (the generator's maximum starts at `0`). -/
theorem timeTaken_nonneg (bp : Blueprint) (res rob : Vec4) (target : RobKind) :
    0 ≤ timeTaken bp res rob target :=
  le_trans
    (le_trans
      (le_trans (le_max_left 0 (waitElem bp res rob target .ore))
        (le_max_left _ (waitElem bp res rob target .clay)))
      (le_max_left _ (waitElem bp res rob target .obsidian)))
    (le_max_left _ (waitElem bp res rob target .geode))

/-- Each element of the `time_taken` generator is at most `time_taken`. -/
theorem waitElem_le_timeTaken (bp : Blueprint) (res rob : Vec4)
    (target : RobKind) : ∀ r, waitElem bp res rob target r ≤ timeTaken bp res rob target := by
  intro r
  cases r
  · exact le_trans (le_max_right 0 _)
      (le_trans (le_max_left _ _) (le_trans (le_max_left _ _) (le_max_left _ _)))
  · exact le_trans (le_max_right _ _)
      (le_trans (le_max_left _ _) (le_max_left _ _))
  · exact le_trans (le_max_right _ _) (le_max_left _ _)
  · exact le_max_right _ _

/-- A call whose `should_not_build` test fails has positive remaining time
(the very first early return fires at `time <= 0`). -/
theorem one_le_time_of_snb {bp : Blueprint} {time : ℤ} {res rob : Vec4}
    {target : RobKind} {cur : ℤ}
    (h : shouldNotBuild bp time res rob target cur = false) : 1 ≤ time := by
  by_contra hc
  rw [shouldNotBuild, if_pos (by omega : time ≤ 0)] at h
  exact absurd h (by simp)

/-- The test `can_build_in_time` always checks the ore requirement. -/
theorem canGet_of_cb_ore {bp : Blueprint} {time : ℤ} {res rob : Vec4}
    {target : RobKind} (h : canBuildInTime bp time res rob target = true) :
    (bp.costRow target).ore ≤ res.ore + (time - 1) * rob.ore := by
  rw [canBuildInTime] at h
  by_cases hg : canGetResourceInTime bp time res .ore rob target = true
  · simpa [canGetResourceInTime, Vec4.comp, ge_iff_le] using hg
  · rw [if_pos hg] at h
    exact absurd h (by simp)

/-- The test `can_build_in_time` for an obsidian robot also checks the clay
requirement. -/
theorem canGet_of_cb_clay {bp : Blueprint} {time : ℤ} {res rob : Vec4}
    (h : canBuildInTime bp time res rob .obsidian = true) :
    (bp.costRow .obsidian).clay ≤ res.clay + (time - 1) * rob.clay := by
  rw [canBuildInTime] at h
  by_cases hg : canGetResourceInTime bp time res .ore rob .obsidian = true
  · rw [if_neg (by simp [hg]), if_pos rfl] at h
    simpa [canGetResourceInTime, Vec4.comp, ge_iff_le] using h
  · rw [if_pos hg] at h
    exact absurd h (by simp)

/-- The test `can_build_in_time` for a geode robot also checks the obsidian
requirement. -/
theorem canGet_of_cb_obsidian {bp : Blueprint} {time : ℤ} {res rob : Vec4}
    (h : canBuildInTime bp time res rob .geode = true) :
    (bp.costRow .geode).obsidian ≤ res.obsidian + (time - 1) * rob.obsidian := by
  rw [canBuildInTime] at h
  by_cases hg : canGetResourceInTime bp time res .ore rob .geode = true
  · rw [if_neg (by simp [hg]), if_neg (by simp), if_pos rfl] at h
    simpa [canGetResourceInTime, Vec4.comp, ge_iff_le] using h
  · rw [if_pos hg] at h
    exact absurd h (by simp)

/-- When a build is committed, the waiting time is at most `time - 1` (the
committed build happens within the remaining budget). -/
theorem timeTaken_le_of_cb (v0 v1 v2 v3 v4 v5 : ℕ) (time : ℤ) (res rob : Vec4)
    (target : RobKind)
    (hres : 0 ≤ res.ore ∧ 0 ≤ res.clay ∧ 0 ≤ res.obsidian ∧ 0 ≤ res.geode)
    (hrob : 0 ≤ rob.ore ∧ 0 ≤ rob.clay ∧ 0 ≤ rob.obsidian ∧ 0 ≤ rob.geode)
    (ht : 1 ≤ time)
    (hcb : canBuildInTime (getRobotCosts v0 v1 v2 v3 v4 v5) time res rob target = true) :
    timeTaken (getRobotCosts v0 v1 v2 v3 v4 v5) res rob target ≤ time - 1 := by
  obtain ⟨hx1, hx2, hx3, hx4⟩ := hres
  obtain ⟨hp1, hp2, hp3, hp4⟩ := hrob
  have hT : (0 : ℤ) ≤ time - 1 := by omega
  have z1 : (0 : ℤ) ≤ res.ore + (time - 1) * rob.ore := by
    have := mul_nonneg hT hp1; linarith
  have z2 : (0 : ℤ) ≤ res.clay + (time - 1) * rob.clay := by
    have := mul_nonneg hT hp2; linarith
  have z3 : (0 : ℤ) ≤ res.obsidian + (time - 1) * rob.obsidian := by
    have := mul_nonneg hT hp3; linarith
  have z4 : (0 : ℤ) ≤ res.geode + (time - 1) * rob.geode := by
    have := mul_nonneg hT hp4; linarith
  have hore := canGet_of_cb_ore hcb
  cases target with
  | ore =>
    simp only [getRobotCosts, Blueprint.costRow] at hore
    simp only [timeTaken, waitElem, Vec4.comp, Blueprint.costRow, getRobotCosts]
    exact max_le (max_le (max_le (max_le (by omega)
      (waitElemBound_le hT hore)) (waitElemBound_le hT z2))
      (waitElemBound_le hT z3)) (waitElemBound_le hT z4)
  | clay =>
    simp only [getRobotCosts, Blueprint.costRow] at hore
    simp only [timeTaken, waitElem, Vec4.comp, Blueprint.costRow, getRobotCosts]
    exact max_le (max_le (max_le (max_le (by omega)
      (waitElemBound_le hT hore)) (waitElemBound_le hT z2))
      (waitElemBound_le hT z3)) (waitElemBound_le hT z4)
  | obsidian =>
    have hclay := canGet_of_cb_clay hcb
    simp only [getRobotCosts, Blueprint.costRow] at hore hclay
    simp only [timeTaken, waitElem, Vec4.comp, Blueprint.costRow, getRobotCosts]
    exact max_le (max_le (max_le (max_le (by omega)
      (waitElemBound_le hT hore)) (waitElemBound_le hT hclay))
      (waitElemBound_le hT z3)) (waitElemBound_le hT z4)
  | geode =>
    have hobs := canGet_of_cb_obsidian hcb
    simp only [getRobotCosts, Blueprint.costRow] at hore hobs
    simp only [timeTaken, waitElem, Vec4.comp, Blueprint.costRow, getRobotCosts]
    exact max_le (max_le (max_le (max_le (by omega)
      (waitElemBound_le hT hore)) (waitElemBound_le hT z2))
      (waitElemBound_le hT hobs)) (waitElemBound_le hT z4)

/-- A committed build step keeps every resource stock and robot count
non-negative. -/
theorem step_preserves_nonneg (v0 v1 v2 v3 v4 v5 : ℕ) (time : ℤ)
    (res rob : Vec4) (target : RobKind)
    (hres : 0 ≤ res.ore ∧ 0 ≤ res.clay ∧ 0 ≤ res.obsidian ∧ 0 ≤ res.geode)
    (hrob : 0 ≤ rob.ore ∧ 0 ≤ rob.clay ∧ 0 ≤ rob.obsidian ∧ 0 ≤ rob.geode)
    (ht : 1 ≤ time)
    (hcb : canBuildInTime (getRobotCosts v0 v1 v2 v3 v4 v5) time res rob target = true) :
    (0 ≤ (advance res rob ((getRobotCosts v0 v1 v2 v3 v4 v5).costRow target)
          (timeTaken (getRobotCosts v0 v1 v2 v3 v4 v5) res rob target + 1)).ore ∧
        0 ≤ (advance res rob ((getRobotCosts v0 v1 v2 v3 v4 v5).costRow target)
          (timeTaken (getRobotCosts v0 v1 v2 v3 v4 v5) res rob target + 1)).clay ∧
        0 ≤ (advance res rob ((getRobotCosts v0 v1 v2 v3 v4 v5).costRow target)
          (timeTaken (getRobotCosts v0 v1 v2 v3 v4 v5) res rob target + 1)).obsidian ∧
        0 ≤ (advance res rob ((getRobotCosts v0 v1 v2 v3 v4 v5).costRow target)
          (timeTaken (getRobotCosts v0 v1 v2 v3 v4 v5) res rob target + 1)).geode) ∧
      (0 ≤ (rob.bump target).ore ∧ 0 ≤ (rob.bump target).clay ∧
        0 ≤ (rob.bump target).obsidian ∧ 0 ≤ (rob.bump target).geode) := by
  obtain ⟨hx1, hx2, hx3, hx4⟩ := hres
  obtain ⟨hp1, hp2, hp3, hp4⟩ := hrob
  have hT : (0 : ℤ) ≤ time - 1 := by omega
  have z1 : (0 : ℤ) ≤ res.ore + (time - 1) * rob.ore := by
    have := mul_nonneg hT hp1; linarith
  have z2 : (0 : ℤ) ≤ res.clay + (time - 1) * rob.clay := by
    have := mul_nonneg hT hp2; linarith
  have z3 : (0 : ℤ) ≤ res.obsidian + (time - 1) * rob.obsidian := by
    have := mul_nonneg hT hp3; linarith
  have z4 : (0 : ℤ) ≤ res.geode + (time - 1) * rob.geode := by
    have := mul_nonneg hT hp4; linarith
  have hore := canGet_of_cb_ore hcb
  have hw1 := waitElem_le_timeTaken (getRobotCosts v0 v1 v2 v3 v4 v5) res rob target .ore
  have hw2 := waitElem_le_timeTaken (getRobotCosts v0 v1 v2 v3 v4 v5) res rob target .clay
  have hw3 := waitElem_le_timeTaken (getRobotCosts v0 v1 v2 v3 v4 v5) res rob target .obsidian
  have hw4 := waitElem_le_timeTaken (getRobotCosts v0 v1 v2 v3 v4 v5) res rob target .geode
  refine ⟨?_, ?_⟩
  · cases target with
    | ore =>
      simp only [getRobotCosts, Blueprint.costRow] at hore
      simp only [waitElem, Vec4.comp, Blueprint.costRow, getRobotCosts] at hw1 hw2 hw3 hw4
      simp only [advance, Blueprint.costRow, getRobotCosts]
      exact ⟨advance_comp_nonneg hx1 hp1 hT hw1 hore,
        advance_comp_nonneg hx2 hp2 hT hw2 z2,
        advance_comp_nonneg hx3 hp3 hT hw3 z3,
        advance_comp_nonneg hx4 hp4 hT hw4 z4⟩
    | clay =>
      simp only [getRobotCosts, Blueprint.costRow] at hore
      simp only [waitElem, Vec4.comp, Blueprint.costRow, getRobotCosts] at hw1 hw2 hw3 hw4
      simp only [advance, Blueprint.costRow, getRobotCosts]
      exact ⟨advance_comp_nonneg hx1 hp1 hT hw1 hore,
        advance_comp_nonneg hx2 hp2 hT hw2 z2,
        advance_comp_nonneg hx3 hp3 hT hw3 z3,
        advance_comp_nonneg hx4 hp4 hT hw4 z4⟩
    | obsidian =>
      have hclay := canGet_of_cb_clay hcb
      simp only [getRobotCosts, Blueprint.costRow] at hore hclay
      simp only [waitElem, Vec4.comp, Blueprint.costRow, getRobotCosts] at hw1 hw2 hw3 hw4
      simp only [advance, Blueprint.costRow, getRobotCosts]
      exact ⟨advance_comp_nonneg hx1 hp1 hT hw1 hore,
        advance_comp_nonneg hx2 hp2 hT hw2 hclay,
        advance_comp_nonneg hx3 hp3 hT hw3 z3,
        advance_comp_nonneg hx4 hp4 hT hw4 z4⟩
    | geode =>
      have hobs := canGet_of_cb_obsidian hcb
      simp only [getRobotCosts, Blueprint.costRow] at hore hobs
      simp only [waitElem, Vec4.comp, Blueprint.costRow, getRobotCosts] at hw1 hw2 hw3 hw4
      simp only [advance, Blueprint.costRow, getRobotCosts]
      exact ⟨advance_comp_nonneg hx1 hp1 hT hw1 hore,
        advance_comp_nonneg hx2 hp2 hT hw2 z2,
        advance_comp_nonneg hx3 hp3 hT hw3 hobs,
        advance_comp_nonneg hx4 hp4 hT hw4 z4⟩
  · cases target <;> simp only [Vec4.bump] <;>
      exact ⟨by omega, by omega, by omega, by omega⟩

/-- C7 (refuted): the search reaches a state with a negative resource stock.
On the non-negative blueprint whose ore robot costs `2 ^ 55 + 2` ore (all
other cost values `1`), at time budget `2 ^ 55 + 3`, the driver's first call
(target ore, best-so-far `0`) passes both guards, but the binary64 division
rounds the quotient `2 ^ 55 + 2` down to `2 ^ 55` (round to nearest, ties to
even: two below the exact value, which needs `56` bits), so the committed
build waits two ticks too few and the child call starts with
`resources[ORE] = 0 + 1 * (2 ^ 55 + 1) - (2 ^ 55 + 2) = -1`.  Under the exact
integer ceiling (`timeTaken`, fourth conjunct) the deduction would be covered
and the invariant would hold. -/
theorem day19_C7_negative_ore_reachable :
    shouldNotBuild (getRobotCosts (2 ^ 55 + 2) 1 1 1 1 1) (2 ^ 55 + 3)
        ⟨0, 0, 0, 0⟩ ⟨1, 0, 0, 0⟩ .ore 0 = false ∧
      canBuildInTime (getRobotCosts (2 ^ 55 + 2) 1 1 1 1 1) (2 ^ 55 + 3)
        ⟨0, 0, 0, 0⟩ ⟨1, 0, 0, 0⟩ .ore = true ∧
      floatTimeTaken (getRobotCosts (2 ^ 55 + 2) 1 1 1 1 1)
        ⟨0, 0, 0, 0⟩ ⟨1, 0, 0, 0⟩ .ore = 2 ^ 55 ∧
      timeTaken (getRobotCosts (2 ^ 55 + 2) 1 1 1 1 1)
        ⟨0, 0, 0, 0⟩ ⟨1, 0, 0, 0⟩ .ore = 2 ^ 55 + 2 ∧
      ReachableF (getRobotCosts (2 ^ 55 + 2) 1 1 1 1 1) (2 ^ 55 + 3)
        (2 ^ 55 + 3 -
          (floatTimeTaken (getRobotCosts (2 ^ 55 + 2) 1 1 1 1 1)
            ⟨0, 0, 0, 0⟩ ⟨1, 0, 0, 0⟩ .ore + 1))
        (advance ⟨0, 0, 0, 0⟩ ⟨1, 0, 0, 0⟩
          ((getRobotCosts (2 ^ 55 + 2) 1 1 1 1 1).costRow .ore)
          (floatTimeTaken (getRobotCosts (2 ^ 55 + 2) 1 1 1 1 1)
            ⟨0, 0, 0, 0⟩ ⟨1, 0, 0, 0⟩ .ore + 1))
        (Vec4.bump ⟨1, 0, 0, 0⟩ .ore) ∧
      (advance ⟨0, 0, 0, 0⟩ ⟨1, 0, 0, 0⟩
          ((getRobotCosts (2 ^ 55 + 2) 1 1 1 1 1).costRow .ore)
          (floatTimeTaken (getRobotCosts (2 ^ 55 + 2) 1 1 1 1 1)
            ⟨0, 0, 0, 0⟩ ⟨1, 0, 0, 0⟩ .ore + 1)).ore = -1 := by
  refine ⟨by decide, by decide, ?_, by decide, ?_, ?_⟩
  · with_unfolding_all decide
  · exact ReachableF.step (2 ^ 55 + 3) ⟨0, 0, 0, 0⟩ ⟨1, 0, 0, 0⟩ .ore 0
      ReachableF.init (by decide) (by decide)
  · with_unfolding_all decide

/-- C4 (as amended): the greedy geode rule is not implemented — the search also
explores non-geode builds from geode-affordable states (see the counterexample
theorem) — but whenever the geode target is selected from a componentwise
non-negative state in which the geode robot is currently affordable and
`should_not_build` does not fire, the build is committed immediately: the
waiting time is zero and `can_build_in_time` holds. -/
theorem day19_C4_geode_built_immediately_when_chosen
    (bp : Blueprint) (time : ℤ) (res rob : Vec4) (cur : ℤ)
    (hres : 0 ≤ res.ore ∧ 0 ≤ res.clay ∧ 0 ≤ res.obsidian ∧ 0 ≤ res.geode)
    (hrob : 0 ≤ rob.ore ∧ 0 ≤ rob.clay ∧ 0 ≤ rob.obsidian ∧ 0 ≤ rob.geode)
    (haff : affordable res (bp.costRow .geode) = true)
    (hsnb : shouldNotBuild bp time res rob .geode cur = false) :
    timeTaken bp res rob .geode = 0 ∧
      canBuildInTime bp time res rob .geode = true ∧
      entersBuildBranch bp time res rob .geode cur = true := by
  obtain ⟨hx1, hx2, hx3, hx4⟩ := hres
  obtain ⟨hp1, hp2, hp3, hp4⟩ := hrob
  have ht := one_le_time_of_snb hsnb
  have haf := haff
  rw [affordable, decide_eq_true_eq] at haf
  obtain ⟨ha1, ha2, ha3, ha4⟩ := haf
  have htt0 : timeTaken bp res rob .geode = 0 := by
    refine le_antisymm ?_ (timeTaken_nonneg bp res rob .geode)
    have b1 : waitElem bp res rob .geode .ore ≤ 0 := by
      simp only [waitElem, Vec4.comp]
      exact waitElemBound_le (le_refl 0) (by simpa using ha1)
    have b2 : waitElem bp res rob .geode .clay ≤ 0 := by
      simp only [waitElem, Vec4.comp]
      exact waitElemBound_le (le_refl 0) (by simpa using ha2)
    have b3 : waitElem bp res rob .geode .obsidian ≤ 0 := by
      simp only [waitElem, Vec4.comp]
      exact waitElemBound_le (le_refl 0) (by simpa using ha3)
    have b4 : waitElem bp res rob .geode .geode ≤ 0 := by
      simp only [waitElem, Vec4.comp]
      exact waitElemBound_le (le_refl 0) (by simpa using ha4)
    exact max_le (max_le (max_le (max_le (le_refl 0) b1) b2) b3) b4
  have hgo : canGetResourceInTime bp time res .ore rob .geode = true := by
    simp only [canGetResourceInTime, Vec4.comp, ge_iff_le, decide_eq_true_eq]
    have := mul_nonneg (by omega : (0 : ℤ) ≤ time - 1) hp1
    linarith
  have hgb : canGetResourceInTime bp time res .obsidian rob .geode = true := by
    simp only [canGetResourceInTime, Vec4.comp, ge_iff_le, decide_eq_true_eq]
    have := mul_nonneg (by omega : (0 : ℤ) ≤ time - 1) hp3
    linarith
  have hcb : canBuildInTime bp time res rob .geode = true := by
    rw [canBuildInTime]
    simp [hgo, hgb]
  exact ⟨htt0, hcb, by simp [entersBuildBranch, hsnb, hcb]⟩

/-- C3 (as amended): the triangular number in the pruning bound is exact
integer arithmetic: twice the bound recovers `(time - 1) * time` exactly,
because one of two consecutive integers is even, so the floor division by two
loses nothing. -/
theorem day19_C3_triangular_exact (res rob : Vec4) (t : ℤ) :
    2 * maxPossibleGeode res rob t =
      2 * res.geode + 2 * (rob.geode * t) + (t - 1) * t := by
  have he : Even ((t - 1) * t) := by
    simpa using Int.even_mul_succ_self (t - 1)
  obtain ⟨k, hk⟩ := even_iff_two_dvd.mp he
  rw [maxPossibleGeode, hk, Int.mul_ediv_cancel_left k (by norm_num)]
  ring

/-- The ceiling of an exact integer fraction with positive denominator is
`ceilDiv`. -/
theorem ceilDiv_eq_ceil_div {a b : ℤ} (hb : 0 < b) :
    (⌈(a : ℚ) / (b : ℚ)⌉ : ℤ) = ceilDiv a b := by
  have hb' : ((b.toNat : ℤ)) = b := Int.toNat_of_nonneg hb.le
  have hbq : ((b.toNat : ℕ) : ℚ) = (b : ℚ) := by exact_mod_cast hb'
  have h1 : -((a : ℚ) / (b : ℚ)) = ((-a : ℤ) : ℚ) / ((b.toNat : ℕ) : ℚ) := by
    rw [hbq]
    push_cast
    ring
  have h2 : ⌊-((a : ℚ) / (b : ℚ))⌋ = -a / b := by
    rw [h1, Rat.floor_intCast_div_natCast, hb']
  rw [ceilDiv, ← h2, Int.floor_neg, neg_neg]

/-- The ceiling of a maximum is the maximum of the ceilings. -/
theorem ceil_max_eq (a b : ℚ) : (⌈max a b⌉ : ℤ) = max ⌈a⌉ ⌈b⌉ := by
  rcases le_total a b with h | h
  · rw [max_eq_right h, max_eq_right (Int.ceil_le_ceil h)]
  · rw [max_eq_left h, max_eq_left (Int.ceil_le_ceil h)]

/-- The integer-arithmetic `timeTaken` used by the embedded search equals the
literal reading of the source expression (exact rational divisions, one
maximum, one ceiling): pushing the monotone ceiling through the maximum and
evaluating each exact division's ceiling as `ceilDiv` changes nothing. -/
theorem timeTakenRat_eq_timeTaken (bp : Blueprint) (res rob : Vec4)
    (target : RobKind) :
    timeTakenRat bp res rob target = timeTaken bp res rob target := by
  have he : ∀ r : RobKind,
      (⌈if rob.comp r > 0
          then (((bp.costRow target).comp r - res.comp r : ℤ) : ℚ) /
            ((rob.comp r : ℤ) : ℚ)
          else 0⌉ : ℤ) = waitElem bp res rob target r := by
    intro r
    by_cases hp : rob.comp r > 0
    · rw [if_pos hp, waitElem, if_pos hp, ceilDiv_eq_ceil_div hp]
    · rw [if_neg hp, waitElem, if_neg hp, Int.ceil_zero]
  simp only [timeTakenRat]
  rw [ceil_max_eq, ceil_max_eq, ceil_max_eq, ceil_max_eq, Int.ceil_zero,
    he .ore, he .clay, he .obsidian, he .geode, timeTaken]

/-- A line that parses runs the search: `get_maximum_geode` returns the parsed
id and the search result. -/
theorem getMaximumGeode_parse {l : String} {b : ParsedBlueprint}
    (h : parseLine l = some b) (time : ℤ) :
    getMaximumGeode l time = some (b.id, getMaximumGeodeNums b.costs time) := by
  have hne : l ≠ "" := by
    intro he
    subst he
    rw [show parseLine "" = none from rfl] at h
    exact Option.noConfusion h
  rw [getMaximumGeode, if_neg hne, h]
  rfl

/-- C9: the batch driver computes part 1 as the sum of `id * maximum at 24`
over all blueprints of the input, and part 2 as the product of the maxima at
32 over the first three blueprints (when the input has at least three
lines). -/
theorem day19_C9_driver (lines : List String) (bps : List ParsedBlueprint)
    (hp : lines.mapM parseLine = some bps) :
    part1 lines = some (part1Spec bps) ∧
      (3 ≤ lines.length → part2 lines = some (part2Spec bps)) := by
  constructor
  · induction lines generalizing bps with
    | nil =>
      simp only [List.mapM_nil, pure, Option.some.injEq] at hp
      subst hp
      rfl
    | cons l ls ih =>
      rw [List.mapM_cons] at hp
      rcases hl : parseLine l with _ | b
      · rw [hl] at hp
        exact Option.noConfusion hp
      rcases hr : ls.mapM parseLine with _ | rest
      · rw [hl, hr] at hp
        exact Option.noConfusion hp
      rw [hl, hr] at hp
      simp only [Option.bind_eq_bind, Option.some_bind, Option.pure_def,
        Option.some.injEq] at hp
      subst hp
      have hc : part1Contribution l =
          some ((b.id : ℤ) * getMaximumGeodeNums b.costs 24) := by
        rw [part1Contribution, getMaximumGeode_parse hl]
        rfl
      have ihr := ih rest hr
      rcases hm : ls.mapM part1Contribution with _ | w
      · rw [part1, hm] at ihr
        exact Option.noConfusion ihr
      rw [part1, hm] at ihr
      simp only [Option.map_some', Option.some.injEq] at ihr
      rw [part1, List.mapM_cons, hc, hm]
      rw [part1Spec] at ihr
      simp only [Option.bind_eq_bind, Option.some_bind, Option.pure_def,
        Option.map_some', Option.some.injEq, part1Spec, List.map_cons,
        List.sum_cons]
      rw [← ihr]
  · intro hlen
    match lines, bps, hp with
    | l1 :: l2 :: l3 :: rest, bps, hp =>
      rw [List.mapM_cons, List.mapM_cons, List.mapM_cons] at hp
      rcases h1 : parseLine l1 with _ | b1
      · rw [h1] at hp; exact Option.noConfusion hp
      rcases h2 : parseLine l2 with _ | b2
      · rw [h1, h2] at hp; simp at hp
      rcases h3 : parseLine l3 with _ | b3
      · rw [h1, h2, h3] at hp; simp at hp
      rcases h4 : rest.mapM parseLine with _ | brest
      · rw [h1, h2, h3, h4] at hp; simp at hp
      rw [h1, h2, h3, h4] at hp
      simp only [Option.bind_eq_bind, Option.some_bind, Option.pure_def,
        Option.some.injEq] at hp
      subst hp
      have g1 : geodeCount32 l1 = some (getMaximumGeodeNums b1.costs 32) := by
        rw [geodeCount32, getMaximumGeode_parse h1]; rfl
      have g2 : geodeCount32 l2 = some (getMaximumGeodeNums b2.costs 32) := by
        rw [geodeCount32, getMaximumGeode_parse h2]; rfl
      have g3 : geodeCount32 l3 = some (getMaximumGeodeNums b3.costs 32) := by
        rw [geodeCount32, getMaximumGeode_parse h3]; rfl
      rw [part2]
      simp only [List.getD_cons_zero, List.getD_cons_succ, g1, g2, g3,
        Option.bind_eq_bind, Option.some_bind, part2Spec, List.take_succ_cons,
        List.take_zero, List.map_cons, List.map_nil, List.prod_cons,
        List.prod_nil]
      rw [mul_one, mul_assoc]
      rfl

/-- The product of two consecutive integers is non-negative. -/
theorem consec_mul_nonneg (t : ℤ) : 0 ≤ (t - 1) * t := by
  rcases le_or_lt t 0 with h | h
  · nlinarith [sq_nonneg t]
  · nlinarith [sq_nonneg t]

/-- The triangular term of the pruning bound is non-negative. -/
theorem tri_nonneg (t : ℤ) : 0 ≤ (t - 1) * t / 2 :=
  Int.ediv_nonneg (consec_mul_nonneg t) (by norm_num)

/-- Adding the base to a triangular number gives the next one. -/
theorem tri_succ (t : ℤ) : t + (t - 1) * t / 2 = t * (t + 1) / 2 := by
  obtain ⟨k, hk⟩ := even_iff_two_dvd.mp
    (by simpa using Int.even_mul_succ_self (t - 1))
  have h2 : t * (t + 1) = 2 * (k + t) := by
    have e : t * (t + 1) = (t - 1) * t + 2 * t := by ring
    rw [e, hk]
    ring
  rw [hk, h2, Int.mul_ediv_cancel_left _ (by norm_num),
    Int.mul_ediv_cancel_left _ (by norm_num)]
  ring

/-- Triangular numbers are monotone on the non-negative integers. -/
theorem tri_mono {a b : ℤ} (ha : 0 ≤ a) (hab : a ≤ b) :
    (a - 1) * a / 2 ≤ (b - 1) * b / 2 := by
  rcases ha.eq_or_lt with h | h
  · rw [← h]
    norm_num
    exact tri_nonneg b
  · apply Int.ediv_le_ediv (by norm_num)
    nlinarith [mul_nonneg (sub_nonneg.mpr hab) (by omega : (0 : ℤ) ≤ a + b - 1)]

/-- A call whose structural pruning fails has positive remaining time. -/
theorem one_le_time_of_pureSNB {bp : Blueprint} {time : ℤ} {res rob : Vec4}
    {target : RobKind}
    (h : pureShouldNotBuild bp time res rob target = false) : 1 ≤ time := by
  by_contra hc
  rw [pureShouldNotBuild, if_pos (by omega : time ≤ 0)] at h
  exact absurd h (by simp)

/-- The structural prunings are a subset of `should_not_build`'s prunings. -/
theorem pureSNB_imp_snb {bp : Blueprint} {time : ℤ} {res rob : Vec4}
    {target : RobKind} (cur : ℤ)
    (h : pureShouldNotBuild bp time res rob target = true) :
    shouldNotBuild bp time res rob target cur = true := by
  rw [pureShouldNotBuild] at h
  rw [shouldNotBuild]
  split_ifs at h ⊢ <;> simp_all

/-- When `should_not_build` fires but no structural pruning does, the
branch-and-bound test fired: the optimistic bound is at most the
best-so-far. -/
theorem bound_of_snb_of_pure {bp : Blueprint} {time : ℤ} {res rob : Vec4}
    {target : RobKind} {cur : ℤ}
    (hs : shouldNotBuild bp time res rob target cur = true)
    (hp : pureShouldNotBuild bp time res rob target = false) :
    maxPossibleGeode res rob time ≤ cur := by
  rw [shouldNotBuild] at hs
  rw [pureShouldNotBuild] at hp
  split_ifs at hs hp <;> simp_all

/-- Structural pruning is time-independent beyond the `time <= 0` test, so a
state not pruned at a smaller positive time is not pruned at a larger one. -/
theorem pureSNB_false_mono {bp : Blueprint} {t1 t2 : ℤ} {res rob : Vec4}
    {target : RobKind}
    (h : pureShouldNotBuild bp t1 res rob target = false) (h12 : t1 ≤ t2) :
    pureShouldNotBuild bp t2 res rob target = false := by
  have ht := one_le_time_of_pureSNB h
  rw [pureShouldNotBuild, if_neg (by omega : ¬ t1 ≤ 0)] at h
  rw [pureShouldNotBuild, if_neg (by omega : ¬ t2 ≤ 0)]
  exact h

/-- A geode-target call that passes the structural pruning owns an obsidian
robot. -/
theorem obsidian_ne_zero_of_pureSNB_geode {bp : Blueprint} {time : ℤ}
    {res rob : Vec4}
    (h : pureShouldNotBuild bp time res rob .geode = false) :
    rob.obsidian ≠ 0 := by
  intro he
  rw [pureShouldNotBuild] at h
  split_ifs at h <;> simp_all

/-- The test `can_get_resource_in_time` is monotone in the remaining time. -/
theorem canGet_mono {bp : Blueprint} {t1 t2 : ℤ} {res rob : Vec4}
    (r target : RobKind)
    (hp : 0 ≤ rob.comp r) (h12 : t1 ≤ t2)
    (h : canGetResourceInTime bp t1 res r rob target = true) :
    canGetResourceInTime bp t2 res r rob target = true := by
  simp only [canGetResourceInTime, decide_eq_true_eq, ge_iff_le] at h ⊢
  have := mul_le_mul_of_nonneg_right (by omega : t1 - 1 ≤ t2 - 1) hp
  linarith

/-- The test `can_build_in_time` is monotone in the remaining time. -/
theorem cb_mono {bp : Blueprint} {t1 t2 : ℤ} {res rob : Vec4} {target : RobKind}
    (hrob : 0 ≤ rob.ore ∧ 0 ≤ rob.clay ∧ 0 ≤ rob.obsidian ∧ 0 ≤ rob.geode)
    (h12 : t1 ≤ t2)
    (h : canBuildInTime bp t1 res rob target = true) :
    canBuildInTime bp t2 res rob target = true := by
  obtain ⟨hp1, hp2, hp3, hp4⟩ := hrob
  rw [canBuildInTime] at h ⊢
  by_cases hg : canGetResourceInTime bp t1 res .ore rob target = true
  · have hg2 := canGet_mono .ore target hp1 h12 hg
    rw [if_neg (by simp [hg2])]
    rw [if_neg (by simp [hg])] at h
    by_cases ho : target = .obsidian
    · rw [if_pos ho] at h ⊢
      exact canGet_mono .clay target hp2 h12 h
    · rw [if_neg ho] at h ⊢
      by_cases hge : target = .geode
      · rw [if_pos hge] at h ⊢
        exact canGet_mono .obsidian target hp3 h12 h
      · rw [if_neg hge]
  · rw [if_pos hg] at h
    exact absurd h (by simp)

/-- The search's robots invariant: a geode robot is only ever built while an
obsidian robot is owned, so owning a geode robot implies owning an obsidian
robot; a committed build preserves this. -/
theorem inv_step {bp : Blueprint} {time : ℤ} {res rob : Vec4} {target : RobKind}
    (hobs : 0 ≤ rob.obsidian)
    (hinv : 1 ≤ rob.geode → 1 ≤ rob.obsidian)
    (hp : pureShouldNotBuild bp time res rob target = false) :
    1 ≤ (rob.bump target).geode → 1 ≤ (rob.bump target).obsidian := by
  cases target with
  | ore => simpa [Vec4.bump] using hinv
  | clay => simpa [Vec4.bump] using hinv
  | obsidian =>
    intro _
    simp only [Vec4.bump]
    omega
  | geode =>
    intro _
    simp only [Vec4.bump]
    have := obsidian_ne_zero_of_pureSNB_geode hp
    omega

/-- Every robot's cost row of a parsed blueprint has geode component zero:
geodes are never spent. -/
theorem costRow_geode_zero (v0 v1 v2 v3 v4 v5 : ℕ) (target : RobKind) :
    ((getRobotCosts v0 v1 v2 v3 v4 v5).costRow target).geode = 0 := by
  cases target <;> rfl

/-- A committed build's successor state has an optimistic bound no larger than
its parent's: production of geodes over the window is already counted, the
robot count grows by at most one, and the triangular tail absorbs the extra
robot's output. -/
theorem bound_step_arith (g d : ℤ) {rg tt time : ℤ} (hrg : 0 ≤ rg)
    (htt0 : 0 ≤ tt) (htt1 : tt ≤ time - 1) (hd0 : 0 ≤ d) (hd1 : d ≤ 1) :
    g + rg * (tt + 1) + (rg + d) * (time - (tt + 1)) +
        (time - (tt + 1) - 1) * (time - (tt + 1)) / 2 ≤
      g + rg * time + (time - 1) * time / 2 := by
  have ht1 : (0 : ℤ) ≤ time - (tt + 1) := by omega
  have h2 := tri_succ (time - (tt + 1))
  have h3 := tri_mono (by omega : (0 : ℤ) ≤ time - (tt + 1) + 1)
    (by omega : time - (tt + 1) + 1 ≤ time)
  rw [show time - (tt + 1) + 1 - 1 = time - (tt + 1) from by ring] at h3
  have hdle : d * (time - (tt + 1)) ≤ time - (tt + 1) := by
    have := mul_le_mul_of_nonneg_right hd1 ht1
    linarith
  have eR : rg * (tt + 1) + rg * (time - (tt + 1)) = rg * time := by ring
  have eD : (rg + d) * (time - (tt + 1)) =
      rg * (time - (tt + 1)) + d * (time - (tt + 1)) := by ring
  linarith

/-- A committed build's successor state has an optimistic bound no larger than
its parent's: geode production over the waiting window is banked into the
stock, the geode-robot count grows by at most one, and the shorter triangular
tail absorbs the extra robot's output. -/
theorem bound_step_le (v0 v1 v2 v3 v4 v5 : ℕ) (time : ℤ) (res rob : Vec4)
    (target : RobKind) (hrobG : 0 ≤ rob.geode)
    (htt0 : 0 ≤ timeTaken (getRobotCosts v0 v1 v2 v3 v4 v5) res rob target)
    (httle : timeTaken (getRobotCosts v0 v1 v2 v3 v4 v5) res rob target ≤ time - 1) :
    maxPossibleGeode
        (advance res rob ((getRobotCosts v0 v1 v2 v3 v4 v5).costRow target)
          (timeTaken (getRobotCosts v0 v1 v2 v3 v4 v5) res rob target + 1))
        (rob.bump target)
        (time - (timeTaken (getRobotCosts v0 v1 v2 v3 v4 v5) res rob target + 1)) ≤
      maxPossibleGeode res rob time := by
  rw [maxPossibleGeode, maxPossibleGeode]
  simp only [advance, costRow_geode_zero, sub_zero]
  cases target with
  | ore =>
    simp only [Vec4.bump]
    linarith [bound_step_arith res.geode 0 hrobG htt0 httle le_rfl zero_le_one]
  | clay =>
    simp only [Vec4.bump]
    linarith [bound_step_arith res.geode 0 hrobG htt0 httle le_rfl zero_le_one]
  | obsidian =>
    simp only [Vec4.bump]
    linarith [bound_step_arith res.geode 0 hrobG htt0 httle le_rfl zero_le_one]
  | geode =>
    simp only [Vec4.bump]
    linarith [bound_step_arith res.geode 1 hrobG htt0 httle zero_le_one le_rfl]

/-- The pruning-free value never exceeds the optimistic bound
`max_possible_geode`. -/
theorem pure_le_bound (v0 v1 v2 v3 v4 v5 : ℕ) :
    ∀ (fuel : ℕ) (time : ℤ) (res rob : Vec4) (target : RobKind),
      0 ≤ time →
      (0 ≤ res.ore ∧ 0 ≤ res.clay ∧ 0 ≤ res.obsidian ∧ 0 ≤ res.geode) →
      (0 ≤ rob.ore ∧ 0 ≤ rob.clay ∧ 0 ≤ rob.obsidian ∧ 0 ≤ rob.geode) →
      pureSolve (getRobotCosts v0 v1 v2 v3 v4 v5) fuel time res rob target ≤
        maxPossibleGeode res rob time := by
  intro fuel
  induction fuel with
  | zero =>
    intro time res rob target ht hres hrob
    rw [pureSolve, maxPossibleGeode]
    have h1 := mul_nonneg hrob.2.2.2 ht
    have h2 := tri_nonneg time
    linarith
  | succ f ih =>
    intro time res rob target ht hres hrob
    rw [pureSolve]
    by_cases hp : pureShouldNotBuild (getRobotCosts v0 v1 v2 v3 v4 v5) time res rob target = true
    · rw [if_pos hp, maxPossibleGeode]
      have h1 := mul_nonneg hrob.2.2.2 ht
      have h2 := tri_nonneg time
      linarith
    · have hp' : pureShouldNotBuild (getRobotCosts v0 v1 v2 v3 v4 v5) time res rob target = false := by
        simpa using hp
      rw [if_neg hp]
      have ht1 := one_le_time_of_pureSNB hp'
      by_cases hc : canBuildInTime (getRobotCosts v0 v1 v2 v3 v4 v5) time res rob target = true
      · rw [if_neg (by simp [hc])]
        have httle := timeTaken_le_of_cb v0 v1 v2 v3 v4 v5 time res rob target hres hrob ht1 hc
        have htt0 := timeTaken_nonneg (getRobotCosts v0 v1 v2 v3 v4 v5) res rob target
        have hstep := step_preserves_nonneg v0 v1 v2 v3 v4 v5 time res rob target hres hrob ht1 hc
        have ht1' : (0 : ℤ) ≤ time -
            (timeTaken (getRobotCosts v0 v1 v2 v3 v4 v5) res rob target + 1) := by
          omega
        have hchild := fun k : RobKind => ih _ _ _ k ht1' hstep.1 hstep.2
        have hkey := bound_step_le v0 v1 v2 v3 v4 v5 time res rob target
          hrob.2.2.2 htt0 httle
        exact max_le (max_le (max_le (le_trans (hchild .ore) hkey)
          (le_trans (hchild .clay) hkey)) (le_trans (hchild .obsidian) hkey))
          (le_trans (hchild .geode) hkey)
      · rw [if_pos hc, maxPossibleGeode]
        have h2 := tri_nonneg time
        have e : time * rob.geode = rob.geode * time := mul_comm _ _
        linarith

/-- The pruning-free value is at least the current geode stock. -/
theorem geode_le_pure (v0 v1 v2 v3 v4 v5 : ℕ) :
    ∀ (fuel : ℕ) (time : ℤ) (res rob : Vec4) (target : RobKind),
      (0 ≤ res.ore ∧ 0 ≤ res.clay ∧ 0 ≤ res.obsidian ∧ 0 ≤ res.geode) →
      (0 ≤ rob.ore ∧ 0 ≤ rob.clay ∧ 0 ≤ rob.obsidian ∧ 0 ≤ rob.geode) →
      res.geode ≤ pureSolve (getRobotCosts v0 v1 v2 v3 v4 v5) fuel time res rob target := by
  intro fuel
  induction fuel with
  | zero =>
    intro time res rob target hres hrob
    rw [pureSolve]
  | succ f ih =>
    intro time res rob target hres hrob
    rw [pureSolve]
    by_cases hp : pureShouldNotBuild (getRobotCosts v0 v1 v2 v3 v4 v5) time res rob target = true
    · rw [if_pos hp]
    · have hp' : pureShouldNotBuild (getRobotCosts v0 v1 v2 v3 v4 v5) time res rob target = false := by
        simpa using hp
      rw [if_neg hp]
      have ht1 := one_le_time_of_pureSNB hp'
      by_cases hc : canBuildInTime (getRobotCosts v0 v1 v2 v3 v4 v5) time res rob target = true
      · rw [if_neg (by simp [hc])]
        have hstep := step_preserves_nonneg v0 v1 v2 v3 v4 v5 time res rob target hres hrob ht1 hc
        have htt0 := timeTaken_nonneg (getRobotCosts v0 v1 v2 v3 v4 v5) res rob target
        have hNew : res.geode ≤ (advance res rob
            ((getRobotCosts v0 v1 v2 v3 v4 v5).costRow target)
            (timeTaken (getRobotCosts v0 v1 v2 v3 v4 v5) res rob target + 1)).geode := by
          simp only [advance, costRow_geode_zero, sub_zero]
          have := mul_nonneg hrob.2.2.2
            (by omega : (0 : ℤ) ≤ timeTaken (getRobotCosts v0 v1 v2 v3 v4 v5) res rob target + 1)
          linarith
        exact le_trans (le_trans hNew (ih _ _ _ .ore hstep.1 hstep.2))
          (le_trans (le_trans (le_max_left _ _) (le_max_left _ _)) (le_max_left _ _))
      · rw [if_pos hc]
        have := mul_nonneg (by omega : (0 : ℤ) ≤ time) hrob.2.2.2
        linarith

/-- A structurally pruned geode-target call with positive time owns no
obsidian robot. -/
theorem obsidian_zero_of_pureSNB_geode_true {bp : Blueprint} {time : ℤ}
    {res rob : Vec4}
    (h : pureShouldNotBuild bp time res rob .geode = true) (ht : ¬ time ≤ 0) :
    rob.obsidian = 0 := by
  rw [pureShouldNotBuild] at h
  split_ifs at h <;> simp_all

/-- The pruning-free value of a geode-target call is at least the value of
coasting: current geodes plus what the owned geode robots produce over the
rest of the budget.  Needs enough fuel and the invariant that geode robots
imply an obsidian robot. -/
theorem coast_le_pure_geode (v0 v1 v2 v3 v4 v5 : ℕ) :
    ∀ (fuel : ℕ) (time : ℤ) (res rob : Vec4),
      0 ≤ time → time < (fuel : ℤ) →
      (0 ≤ res.ore ∧ 0 ≤ res.clay ∧ 0 ≤ res.obsidian ∧ 0 ≤ res.geode) →
      (0 ≤ rob.ore ∧ 0 ≤ rob.clay ∧ 0 ≤ rob.obsidian ∧ 0 ≤ rob.geode) →
      (1 ≤ rob.geode → 1 ≤ rob.obsidian) →
      res.geode + time * rob.geode ≤
        pureSolve (getRobotCosts v0 v1 v2 v3 v4 v5) fuel time res rob .geode := by
  intro fuel
  induction fuel with
  | zero =>
    intro time res rob ht hf hres hrob hinv
    exfalso
    push_cast at hf
    omega
  | succ f ih =>
    intro time res rob ht hf hres hrob hinv
    rw [pureSolve]
    by_cases hp : pureShouldNotBuild (getRobotCosts v0 v1 v2 v3 v4 v5) time res rob .geode = true
    · rw [if_pos hp]
      by_cases h0 : time ≤ 0
      · have : time = 0 := by omega
        rw [this]
        simp
      · have hobs := obsidian_zero_of_pureSNB_geode_true hp h0
        have hrg : rob.geode = 0 := by
          by_contra hg
          have : 1 ≤ rob.geode := by
            have := hrob.2.2.2
            omega
          have := hinv this
          omega
        rw [hrg]
        simp
    · have hp' : pureShouldNotBuild (getRobotCosts v0 v1 v2 v3 v4 v5) time res rob .geode = false := by
        simpa using hp
      rw [if_neg hp]
      have ht1 := one_le_time_of_pureSNB hp'
      by_cases hc : canBuildInTime (getRobotCosts v0 v1 v2 v3 v4 v5) time res rob .geode = true
      · rw [if_neg (by simp [hc])]
        have hstep := step_preserves_nonneg v0 v1 v2 v3 v4 v5 time res rob .geode hres hrob ht1 hc
        have htt0 := timeTaken_nonneg (getRobotCosts v0 v1 v2 v3 v4 v5) res rob .geode
        have httle := timeTaken_le_of_cb v0 v1 v2 v3 v4 v5 time res rob .geode hres hrob ht1 hc
        have hinv' := inv_step hrob.2.2.1 hinv hp'
        have ht1' : (0 : ℤ) ≤ time -
            (timeTaken (getRobotCosts v0 v1 v2 v3 v4 v5) res rob .geode + 1) := by
          omega
        have hf' : time -
            (timeTaken (getRobotCosts v0 v1 v2 v3 v4 v5) res rob .geode + 1) < (f : ℤ) := by
          push_cast at hf
          omega
        have hch := ih _ _ _ ht1' hf' hstep.1 hstep.2 hinv'
        refine le_trans ?_ (le_trans hch (le_max_right _ _))
        have hNewG : (advance res rob
            ((getRobotCosts v0 v1 v2 v3 v4 v5).costRow .geode)
            (timeTaken (getRobotCosts v0 v1 v2 v3 v4 v5) res rob .geode + 1)).geode =
            res.geode + rob.geode *
              (timeTaken (getRobotCosts v0 v1 v2 v3 v4 v5) res rob .geode + 1) := by
          simp only [advance, costRow_geode_zero, sub_zero]
        have hBumpG : ((rob.bump .geode).geode) = rob.geode + 1 := rfl
        rw [hNewG, hBumpG]
        have eR : rob.geode *
              (timeTaken (getRobotCosts v0 v1 v2 v3 v4 v5) res rob .geode + 1) +
            (time - (timeTaken (getRobotCosts v0 v1 v2 v3 v4 v5) res rob .geode + 1)) *
              (rob.geode + 1) =
            rob.geode * time +
              (time - (timeTaken (getRobotCosts v0 v1 v2 v3 v4 v5) res rob .geode + 1)) := by
          ring
        have eC : time * rob.geode = rob.geode * time := mul_comm _ _
        linarith
      · rw [if_pos hc]

/-- Soundness of the branch-and-bound pruning: combined with the incoming
best-so-far, the value returned by `solve` is exactly the pruning-free value —
abandoning a branch whose optimistic bound cannot beat the best-so-far never
changes the running maximum. -/
theorem solve_eq_pure (v0 v1 v2 v3 v4 v5 : ℕ) :
    ∀ (fuel : ℕ) (time : ℤ) (res rob : Vec4) (target : RobKind) (cur : ℤ),
      (0 ≤ res.ore ∧ 0 ≤ res.clay ∧ 0 ≤ res.obsidian ∧ 0 ≤ res.geode) →
      (0 ≤ rob.ore ∧ 0 ≤ rob.clay ∧ 0 ≤ rob.obsidian ∧ 0 ≤ rob.geode) →
      max cur (solve (getRobotCosts v0 v1 v2 v3 v4 v5) fuel time res rob target cur).1 =
        max cur (pureSolve (getRobotCosts v0 v1 v2 v3 v4 v5) fuel time res rob target) := by
  intro fuel
  induction fuel with
  | zero =>
    intro time res rob target cur hres hrob
    rfl
  | succ f ih =>
    intro time res rob target cur hres hrob
    by_cases hs : shouldNotBuild (getRobotCosts v0 v1 v2 v3 v4 v5) time res rob target cur = true
    · by_cases hp : pureShouldNotBuild (getRobotCosts v0 v1 v2 v3 v4 v5) time res rob target = true
      · rw [solve, if_pos hs, pureSolve, if_pos hp]
      · have hp' : pureShouldNotBuild (getRobotCosts v0 v1 v2 v3 v4 v5) time res rob target = false := by
          simpa using hp
        have hb := bound_of_snb_of_pure hs hp'
        have ht1 := one_le_time_of_pureSNB hp'
        have hg : res.geode ≤ cur := by
          have h1 := mul_nonneg hrob.2.2.2 (by omega : (0 : ℤ) ≤ time)
          have h2 := tri_nonneg time
          rw [maxPossibleGeode] at hb
          linarith
        have hpure : pureSolve (getRobotCosts v0 v1 v2 v3 v4 v5) (f + 1) time res rob target ≤ cur :=
          le_trans (pure_le_bound v0 v1 v2 v3 v4 v5 (f + 1) time res rob target
            (by omega) hres hrob) hb
        rw [solve, if_pos hs]
        show max cur res.geode = _
        rw [max_eq_left hg, max_eq_left hpure]
    · have hs' : shouldNotBuild (getRobotCosts v0 v1 v2 v3 v4 v5) time res rob target cur = false := by
        simpa using hs
      have hp' : pureShouldNotBuild (getRobotCosts v0 v1 v2 v3 v4 v5) time res rob target = false := by
        cases hb : pureShouldNotBuild (getRobotCosts v0 v1 v2 v3 v4 v5) time res rob target with
        | false => rfl
        | true => exact absurd (pureSNB_imp_snb cur hb) (by simp [hs'])
      have ht1 := one_le_time_of_snb hs'
      by_cases hc : canBuildInTime (getRobotCosts v0 v1 v2 v3 v4 v5) time res rob target = true
      · rw [solve, if_neg hs, if_neg (by simp [hc]),
          pureSolve, if_neg (by simp [hp']), if_neg (by simp [hc])]
        have hstep := step_preserves_nonneg v0 v1 v2 v3 v4 v5 time res rob target hres hrob ht1 hc
        simp only [solve_robots_unchanged]
        have e1 := ih (time - (timeTaken (getRobotCosts v0 v1 v2 v3 v4 v5) res rob target + 1))
          _ _ .ore cur hstep.1 hstep.2
        rw [e1]
        have e2 := ih (time - (timeTaken (getRobotCosts v0 v1 v2 v3 v4 v5) res rob target + 1))
          _ _ .clay
          (max cur (pureSolve (getRobotCosts v0 v1 v2 v3 v4 v5) f
            (time - (timeTaken (getRobotCosts v0 v1 v2 v3 v4 v5) res rob target + 1))
            (advance res rob ((getRobotCosts v0 v1 v2 v3 v4 v5).costRow target)
              (timeTaken (getRobotCosts v0 v1 v2 v3 v4 v5) res rob target + 1))
            (rob.bump target) .ore))
          hstep.1 hstep.2
        rw [e2]
        have e3 := ih (time - (timeTaken (getRobotCosts v0 v1 v2 v3 v4 v5) res rob target + 1))
          _ _ .obsidian
          (max (max cur (pureSolve (getRobotCosts v0 v1 v2 v3 v4 v5) f
              (time - (timeTaken (getRobotCosts v0 v1 v2 v3 v4 v5) res rob target + 1))
              (advance res rob ((getRobotCosts v0 v1 v2 v3 v4 v5).costRow target)
                (timeTaken (getRobotCosts v0 v1 v2 v3 v4 v5) res rob target + 1))
              (rob.bump target) .ore))
            (pureSolve (getRobotCosts v0 v1 v2 v3 v4 v5) f
              (time - (timeTaken (getRobotCosts v0 v1 v2 v3 v4 v5) res rob target + 1))
              (advance res rob ((getRobotCosts v0 v1 v2 v3 v4 v5).costRow target)
                (timeTaken (getRobotCosts v0 v1 v2 v3 v4 v5) res rob target + 1))
              (rob.bump target) .clay))
          hstep.1 hstep.2
        rw [e3]
        have e4 := ih (time - (timeTaken (getRobotCosts v0 v1 v2 v3 v4 v5) res rob target + 1))
          _ _ .geode
          (max (max (max cur (pureSolve (getRobotCosts v0 v1 v2 v3 v4 v5) f
                (time - (timeTaken (getRobotCosts v0 v1 v2 v3 v4 v5) res rob target + 1))
                (advance res rob ((getRobotCosts v0 v1 v2 v3 v4 v5).costRow target)
                  (timeTaken (getRobotCosts v0 v1 v2 v3 v4 v5) res rob target + 1))
                (rob.bump target) .ore))
              (pureSolve (getRobotCosts v0 v1 v2 v3 v4 v5) f
                (time - (timeTaken (getRobotCosts v0 v1 v2 v3 v4 v5) res rob target + 1))
                (advance res rob ((getRobotCosts v0 v1 v2 v3 v4 v5).costRow target)
                  (timeTaken (getRobotCosts v0 v1 v2 v3 v4 v5) res rob target + 1))
                (rob.bump target) .clay))
            (pureSolve (getRobotCosts v0 v1 v2 v3 v4 v5) f
              (time - (timeTaken (getRobotCosts v0 v1 v2 v3 v4 v5) res rob target + 1))
              (advance res rob ((getRobotCosts v0 v1 v2 v3 v4 v5).costRow target)
                (timeTaken (getRobotCosts v0 v1 v2 v3 v4 v5) res rob target + 1))
              (rob.bump target) .obsidian))
          hstep.1 hstep.2
        rw [e4]
        have hle : cur ≤
            max (max (max (max cur (pureSolve (getRobotCosts v0 v1 v2 v3 v4 v5) f
                  (time - (timeTaken (getRobotCosts v0 v1 v2 v3 v4 v5) res rob target + 1))
                  (advance res rob ((getRobotCosts v0 v1 v2 v3 v4 v5).costRow target)
                    (timeTaken (getRobotCosts v0 v1 v2 v3 v4 v5) res rob target + 1))
                  (rob.bump target) .ore))
                (pureSolve (getRobotCosts v0 v1 v2 v3 v4 v5) f
                  (time - (timeTaken (getRobotCosts v0 v1 v2 v3 v4 v5) res rob target + 1))
                  (advance res rob ((getRobotCosts v0 v1 v2 v3 v4 v5).costRow target)
                    (timeTaken (getRobotCosts v0 v1 v2 v3 v4 v5) res rob target + 1))
                  (rob.bump target) .clay))
              (pureSolve (getRobotCosts v0 v1 v2 v3 v4 v5) f
                (time - (timeTaken (getRobotCosts v0 v1 v2 v3 v4 v5) res rob target + 1))
                (advance res rob ((getRobotCosts v0 v1 v2 v3 v4 v5).costRow target)
                  (timeTaken (getRobotCosts v0 v1 v2 v3 v4 v5) res rob target + 1))
                (rob.bump target) .obsidian))
            (pureSolve (getRobotCosts v0 v1 v2 v3 v4 v5) f
              (time - (timeTaken (getRobotCosts v0 v1 v2 v3 v4 v5) res rob target + 1))
              (advance res rob ((getRobotCosts v0 v1 v2 v3 v4 v5).costRow target)
                (timeTaken (getRobotCosts v0 v1 v2 v3 v4 v5) res rob target + 1))
              (rob.bump target) .geode) :=
          le_trans (le_trans (le_trans (le_max_left _ _) (le_max_left _ _))
            (le_max_left _ _)) (le_max_left _ _)
        rw [max_eq_right hle]
        simp only [max_assoc]
      · rw [solve, if_neg hs, if_pos hc, pureSolve, if_neg (by simp [hp']), if_pos hc]

/-- A bump never decreases the geode count. -/
theorem bump_geode_ge (rob : Vec4) (target : RobKind) :
    rob.geode ≤ (rob.bump target).geode := by
  cases target <;> simp [Vec4.bump]

/-- The fuel is irrelevant as long as it exceeds the remaining time: the
search always runs to its natural base cases. -/
theorem pure_fuel_irrel (bp : Blueprint) :
    ∀ (f g : ℕ) (time : ℤ) (res rob : Vec4) (target : RobKind),
      time < (f : ℤ) → time < (g : ℤ) →
      pureSolve bp f time res rob target = pureSolve bp g time res rob target := by
  intro f
  induction f with
  | zero =>
    intro g time res rob target hf hg
    have ht0 : time ≤ 0 := by push_cast at hf; omega
    have hsnb : pureShouldNotBuild bp time res rob target = true := by
      rw [pureShouldNotBuild, if_pos ht0]
    cases g with
    | zero => rfl
    | succ g' =>
      have h0eq : pureSolve bp 0 time res rob target = res.geode := rfl
      rw [h0eq, pureSolve, if_pos hsnb]
  | succ f' ihf =>
    intro g time res rob target hf hg
    cases g with
    | zero =>
      have ht0 : time ≤ 0 := by push_cast at hg; omega
      have hsnb : pureShouldNotBuild bp time res rob target = true := by
        rw [pureShouldNotBuild, if_pos ht0]
      have h0eq : pureSolve bp 0 time res rob target = res.geode := rfl
      rw [h0eq, pureSolve, if_pos hsnb]
    | succ g' =>
      by_cases hp : pureShouldNotBuild bp time res rob target = true
      · rw [pureSolve, if_pos hp, pureSolve, if_pos hp]
      · by_cases hc : canBuildInTime bp time res rob target = true
        · rw [pureSolve, if_neg hp, if_neg (by simp [hc]),
            pureSolve, if_neg hp, if_neg (by simp [hc])]
          have htt0 := timeTaken_nonneg bp res rob target
          have h1 : time - (timeTaken bp res rob target + 1) < (f' : ℤ) := by
            push_cast at hf; omega
          have h2 : time - (timeTaken bp res rob target + 1) < (g' : ℤ) := by
            push_cast at hg; omega
          have hk : ∀ k : RobKind,
              pureSolve bp f' (time - (timeTaken bp res rob target + 1))
                (advance res rob (bp.costRow target) (timeTaken bp res rob target + 1))
                (rob.bump target) k =
              pureSolve bp g' (time - (timeTaken bp res rob target + 1))
                (advance res rob (bp.costRow target) (timeTaken bp res rob target + 1))
                (rob.bump target) k :=
            fun k => ihf g' _ _ _ k h1 h2
          show max (max (max (pureSolve bp f'
                (time - (timeTaken bp res rob target + 1))
                (advance res rob (bp.costRow target) (timeTaken bp res rob target + 1))
                (rob.bump target) .ore)
              (pureSolve bp f' (time - (timeTaken bp res rob target + 1))
                (advance res rob (bp.costRow target) (timeTaken bp res rob target + 1))
                (rob.bump target) .clay))
            (pureSolve bp f' (time - (timeTaken bp res rob target + 1))
              (advance res rob (bp.costRow target) (timeTaken bp res rob target + 1))
              (rob.bump target) .obsidian))
            (pureSolve bp f' (time - (timeTaken bp res rob target + 1))
              (advance res rob (bp.costRow target) (timeTaken bp res rob target + 1))
              (rob.bump target) .geode) =
            max (max (max (pureSolve bp g'
                (time - (timeTaken bp res rob target + 1))
                (advance res rob (bp.costRow target) (timeTaken bp res rob target + 1))
                (rob.bump target) .ore)
              (pureSolve bp g' (time - (timeTaken bp res rob target + 1))
                (advance res rob (bp.costRow target) (timeTaken bp res rob target + 1))
                (rob.bump target) .clay))
            (pureSolve bp g' (time - (timeTaken bp res rob target + 1))
              (advance res rob (bp.costRow target) (timeTaken bp res rob target + 1))
              (rob.bump target) .obsidian))
            (pureSolve bp g' (time - (timeTaken bp res rob target + 1))
              (advance res rob (bp.costRow target) (timeTaken bp res rob target + 1))
              (rob.bump target) .geode)
          rw [hk .ore, hk .clay, hk .obsidian, hk .geode]
        · rw [pureSolve, if_neg hp, if_pos hc, pureSolve, if_neg hp, if_pos hc]

/-- The pruning-free value is monotone in the remaining time, given enough
fuel, componentwise non-negative state, and the geode-implies-obsidian robots
invariant. -/
theorem pure_mono (v0 v1 v2 v3 v4 v5 : ℕ) :
    ∀ (fuel : ℕ) (t1 t2 : ℤ) (res rob : Vec4) (target : RobKind),
      0 ≤ t1 → t1 ≤ t2 → t2 < (fuel : ℤ) →
      (0 ≤ res.ore ∧ 0 ≤ res.clay ∧ 0 ≤ res.obsidian ∧ 0 ≤ res.geode) →
      (0 ≤ rob.ore ∧ 0 ≤ rob.clay ∧ 0 ≤ rob.obsidian ∧ 0 ≤ rob.geode) →
      (1 ≤ rob.geode → 1 ≤ rob.obsidian) →
      pureSolve (getRobotCosts v0 v1 v2 v3 v4 v5) fuel t1 res rob target ≤
        pureSolve (getRobotCosts v0 v1 v2 v3 v4 v5) fuel t2 res rob target := by
  intro fuel
  induction fuel with
  | zero =>
    intro t1 t2 res rob target h0 h12 hf hres hrob hinv
    exfalso
    push_cast at hf
    omega
  | succ f ih =>
    intro t1 t2 res rob target h0 h12 hf hres hrob hinv
    by_cases hp1 : pureShouldNotBuild (getRobotCosts v0 v1 v2 v3 v4 v5) t1 res rob target = true
    · rw [pureSolve, if_pos hp1]
      exact geode_le_pure v0 v1 v2 v3 v4 v5 (f + 1) t2 res rob target hres hrob
    · have hp1' : pureShouldNotBuild (getRobotCosts v0 v1 v2 v3 v4 v5) t1 res rob target = false := by
        simpa using hp1
      have ht1 := one_le_time_of_pureSNB hp1'
      have hp2' : pureShouldNotBuild (getRobotCosts v0 v1 v2 v3 v4 v5) t2 res rob target = false :=
        pureSNB_false_mono hp1' h12
      by_cases hc1 : canBuildInTime (getRobotCosts v0 v1 v2 v3 v4 v5) t1 res rob target = true
      · have hc2 : canBuildInTime (getRobotCosts v0 v1 v2 v3 v4 v5) t2 res rob target = true :=
          cb_mono hrob h12 hc1
        rw [pureSolve, if_neg hp1, if_neg (by simp [hc1]),
          pureSolve, if_neg (by simp [hp2']), if_neg (by simp [hc2])]
        have hstep := step_preserves_nonneg v0 v1 v2 v3 v4 v5 t1 res rob target hres hrob ht1 hc1
        have hinv' := inv_step hrob.2.2.1 hinv hp1'
        have htt0 := timeTaken_nonneg (getRobotCosts v0 v1 v2 v3 v4 v5) res rob target
        have httle1 := timeTaken_le_of_cb v0 v1 v2 v3 v4 v5 t1 res rob target hres hrob ht1 hc1
        have h0' : (0 : ℤ) ≤ t1 - (timeTaken (getRobotCosts v0 v1 v2 v3 v4 v5) res rob target + 1) := by
          omega
        have h12' : t1 - (timeTaken (getRobotCosts v0 v1 v2 v3 v4 v5) res rob target + 1) ≤
            t2 - (timeTaken (getRobotCosts v0 v1 v2 v3 v4 v5) res rob target + 1) := by
          omega
        have hf' : t2 - (timeTaken (getRobotCosts v0 v1 v2 v3 v4 v5) res rob target + 1) < (f : ℤ) := by
          push_cast at hf
          omega
        exact max_le_max (max_le_max (max_le_max
          (ih _ _ _ _ .ore h0' h12' hf' hstep.1 hstep.2 hinv')
          (ih _ _ _ _ .clay h0' h12' hf' hstep.1 hstep.2 hinv'))
          (ih _ _ _ _ .obsidian h0' h12' hf' hstep.1 hstep.2 hinv'))
          (ih _ _ _ _ .geode h0' h12' hf' hstep.1 hstep.2 hinv')
      · by_cases hc2 : canBuildInTime (getRobotCosts v0 v1 v2 v3 v4 v5) t2 res rob target = true
        · rw [pureSolve, if_neg hp1, if_pos hc1,
            pureSolve, if_neg (by simp [hp2']), if_neg (by simp [hc2])]
          have ht2 : (1 : ℤ) ≤ t2 := by omega
          have hstep := step_preserves_nonneg v0 v1 v2 v3 v4 v5 t2 res rob target hres hrob ht2 hc2
          have hinv' := inv_step hrob.2.2.1 hinv hp2'
          have htt0 := timeTaken_nonneg (getRobotCosts v0 v1 v2 v3 v4 v5) res rob target
          have httle2 := timeTaken_le_of_cb v0 v1 v2 v3 v4 v5 t2 res rob target hres hrob ht2 hc2
          have h0' : (0 : ℤ) ≤ t2 - (timeTaken (getRobotCosts v0 v1 v2 v3 v4 v5) res rob target + 1) := by
            omega
          have hf' : t2 - (timeTaken (getRobotCosts v0 v1 v2 v3 v4 v5) res rob target + 1) < (f : ℤ) := by
            push_cast at hf
            omega
          have hco := coast_le_pure_geode v0 v1 v2 v3 v4 v5 f
            (t2 - (timeTaken (getRobotCosts v0 v1 v2 v3 v4 v5) res rob target + 1))
            (advance res rob ((getRobotCosts v0 v1 v2 v3 v4 v5).costRow target)
              (timeTaken (getRobotCosts v0 v1 v2 v3 v4 v5) res rob target + 1))
            (rob.bump target) h0' hf' hstep.1 hstep.2 hinv'
          refine le_trans ?_ (le_trans hco (le_max_right _ _))
          have hNewG : (advance res rob
              ((getRobotCosts v0 v1 v2 v3 v4 v5).costRow target)
              (timeTaken (getRobotCosts v0 v1 v2 v3 v4 v5) res rob target + 1)).geode =
              res.geode + rob.geode *
                (timeTaken (getRobotCosts v0 v1 v2 v3 v4 v5) res rob target + 1) := by
            simp only [advance, costRow_geode_zero, sub_zero]
          have hBump := bump_geode_ge rob target
          have h2' : (t2 - (timeTaken (getRobotCosts v0 v1 v2 v3 v4 v5) res rob target + 1)) * rob.geode ≤
              (t2 - (timeTaken (getRobotCosts v0 v1 v2 v3 v4 v5) res rob target + 1)) *
                (rob.bump target).geode :=
            mul_le_mul_of_nonneg_left hBump h0'
          have eR : rob.geode *
                (timeTaken (getRobotCosts v0 v1 v2 v3 v4 v5) res rob target + 1) +
              (t2 - (timeTaken (getRobotCosts v0 v1 v2 v3 v4 v5) res rob target + 1)) * rob.geode =
              rob.geode * t2 := by
            ring
          have hmono : rob.geode * t1 ≤ rob.geode * t2 :=
            mul_le_mul_of_nonneg_left h12 hrob.2.2.2
          have eC : t1 * rob.geode = rob.geode * t1 := mul_comm _ _
          rw [hNewG]
          linarith
        · rw [pureSolve, if_neg hp1, if_pos hc1,
            pureSolve, if_neg (by simp [hp2']), if_pos hc2]
          have := mul_le_mul_of_nonneg_right h12 hrob.2.2.2
          linarith

/-- The driver's result is the fold of the four pruning-free root values: the
branch-and-bound threading of the best-so-far through the four root calls
changes nothing. -/
theorem getMax_eq_pure_fold (v0 v1 v2 v3 v4 v5 : ℕ) (time : ℤ) :
    getMaximumGeodeNums (getRobotCosts v0 v1 v2 v3 v4 v5) time =
      max (max (max (max 0
            (pureSolve (getRobotCosts v0 v1 v2 v3 v4 v5) (time.toNat + 1) time
              ⟨0, 0, 0, 0⟩ ⟨1, 0, 0, 0⟩ .ore))
          (pureSolve (getRobotCosts v0 v1 v2 v3 v4 v5) (time.toNat + 1) time
            ⟨0, 0, 0, 0⟩ ⟨1, 0, 0, 0⟩ .clay))
        (pureSolve (getRobotCosts v0 v1 v2 v3 v4 v5) (time.toNat + 1) time
          ⟨0, 0, 0, 0⟩ ⟨1, 0, 0, 0⟩ .obsidian))
      (pureSolve (getRobotCosts v0 v1 v2 v3 v4 v5) (time.toNat + 1) time
        ⟨0, 0, 0, 0⟩ ⟨1, 0, 0, 0⟩ .geode) := by
  have hres : (0 : ℤ) ≤ (⟨0, 0, 0, 0⟩ : Vec4).ore ∧ 0 ≤ (⟨0, 0, 0, 0⟩ : Vec4).clay ∧
      0 ≤ (⟨0, 0, 0, 0⟩ : Vec4).obsidian ∧ 0 ≤ (⟨0, 0, 0, 0⟩ : Vec4).geode := by
    norm_num
  have hrob : (0 : ℤ) ≤ (⟨1, 0, 0, 0⟩ : Vec4).ore ∧ 0 ≤ (⟨1, 0, 0, 0⟩ : Vec4).clay ∧
      0 ≤ (⟨1, 0, 0, 0⟩ : Vec4).obsidian ∧ 0 ≤ (⟨1, 0, 0, 0⟩ : Vec4).geode := by
    norm_num
  simp only [getMaximumGeodeNums]
  rw [solve_eq_pure v0 v1 v2 v3 v4 v5 (time.toNat + 1) time ⟨0, 0, 0, 0⟩
    ⟨1, 0, 0, 0⟩ .ore 0 hres hrob]
  rw [solve_eq_pure v0 v1 v2 v3 v4 v5 (time.toNat + 1) time ⟨0, 0, 0, 0⟩
    ⟨1, 0, 0, 0⟩ .clay
    (max 0 (pureSolve (getRobotCosts v0 v1 v2 v3 v4 v5) (time.toNat + 1) time
      ⟨0, 0, 0, 0⟩ ⟨1, 0, 0, 0⟩ .ore)) hres hrob]
  rw [solve_eq_pure v0 v1 v2 v3 v4 v5 (time.toNat + 1) time ⟨0, 0, 0, 0⟩
    ⟨1, 0, 0, 0⟩ .obsidian
    (max (max 0 (pureSolve (getRobotCosts v0 v1 v2 v3 v4 v5) (time.toNat + 1) time
        ⟨0, 0, 0, 0⟩ ⟨1, 0, 0, 0⟩ .ore))
      (pureSolve (getRobotCosts v0 v1 v2 v3 v4 v5) (time.toNat + 1) time
        ⟨0, 0, 0, 0⟩ ⟨1, 0, 0, 0⟩ .clay)) hres hrob]
  rw [solve_eq_pure v0 v1 v2 v3 v4 v5 (time.toNat + 1) time ⟨0, 0, 0, 0⟩
    ⟨1, 0, 0, 0⟩ .geode
    (max (max (max 0 (pureSolve (getRobotCosts v0 v1 v2 v3 v4 v5) (time.toNat + 1) time
          ⟨0, 0, 0, 0⟩ ⟨1, 0, 0, 0⟩ .ore))
        (pureSolve (getRobotCosts v0 v1 v2 v3 v4 v5) (time.toNat + 1) time
          ⟨0, 0, 0, 0⟩ ⟨1, 0, 0, 0⟩ .clay))
      (pureSolve (getRobotCosts v0 v1 v2 v3 v4 v5) (time.toNat + 1) time
        ⟨0, 0, 0, 0⟩ ⟨1, 0, 0, 0⟩ .obsidian)) hres hrob]

/-- The exact-wait model of the optimizer is monotone non-decreasing in the
time budget, for a fixed parsed blueprint (non-negative cost values).  This is
a statement about `solve` / `getMaximumGeodeNums`, whose wait count is the
exact integer ceiling; it coincides with the source's search whenever every
binary64 division involved rounds exactly, but the source's `floatTimeTaken`
wait can exceed the exact one on quotients of `53` or more bits, which
invalidates the optimistic-bound inequality `bound_step_le` that the
branch-and-bound equivalence `solve_eq_pure` below rests on, so this proof
does not transfer to `solveF` as it stands. -/
theorem monotone_in_time_exact_model (v0 v1 v2 v3 v4 v5 : ℕ) (t1 t2 : ℤ)
    (h0 : 0 ≤ t1) (h12 : t1 ≤ t2) :
    getMaximumGeodeNums (getRobotCosts v0 v1 v2 v3 v4 v5) t1 ≤
      getMaximumGeodeNums (getRobotCosts v0 v1 v2 v3 v4 v5) t2 := by
  rw [getMax_eq_pure_fold, getMax_eq_pure_fold]
  have hres : (0 : ℤ) ≤ (⟨0, 0, 0, 0⟩ : Vec4).ore ∧ 0 ≤ (⟨0, 0, 0, 0⟩ : Vec4).clay ∧
      0 ≤ (⟨0, 0, 0, 0⟩ : Vec4).obsidian ∧ 0 ≤ (⟨0, 0, 0, 0⟩ : Vec4).geode := by
    norm_num
  have hrob : (0 : ℤ) ≤ (⟨1, 0, 0, 0⟩ : Vec4).ore ∧ 0 ≤ (⟨1, 0, 0, 0⟩ : Vec4).clay ∧
      0 ≤ (⟨1, 0, 0, 0⟩ : Vec4).obsidian ∧ 0 ≤ (⟨1, 0, 0, 0⟩ : Vec4).geode := by
    norm_num
  have key : ∀ k : RobKind,
      pureSolve (getRobotCosts v0 v1 v2 v3 v4 v5) (t1.toNat + 1) t1
        ⟨0, 0, 0, 0⟩ ⟨1, 0, 0, 0⟩ k ≤
      pureSolve (getRobotCosts v0 v1 v2 v3 v4 v5) (t2.toNat + 1) t2
        ⟨0, 0, 0, 0⟩ ⟨1, 0, 0, 0⟩ k := by
    intro k
    rw [pure_fuel_irrel (getRobotCosts v0 v1 v2 v3 v4 v5) (t1.toNat + 1)
      (t2.toNat + 1) t1 ⟨0, 0, 0, 0⟩ ⟨1, 0, 0, 0⟩ k (by omega) (by omega)]
    exact pure_mono v0 v1 v2 v3 v4 v5 (t2.toNat + 1) t1 t2 ⟨0, 0, 0, 0⟩
      ⟨1, 0, 0, 0⟩ k h0 h12 (by omega) hres hrob (by decide)
  exact max_le_max (max_le_max (max_le_max (max_le_max (le_refl 0)
    (key .ore)) (key .clay)) (key .obsidian)) (key .geode)

/-- Instance of the exact-model monotonicity at concrete budgets 2 and 4 on
the first example blueprint. -/
theorem monotone_in_time_exact_model_example :
    getMaximumGeodeNums (getRobotCosts 4 2 3 14 2 7) 2 ≤
      getMaximumGeodeNums (getRobotCosts 4 2 3 14 2 7) 4 :=
  monotone_in_time_exact_model 4 2 3 14 2 7 2 4 (by decide) (by decide)

/-- Witness for C9 on a concrete three-line input (each line is the blueprint
of the C1 analysis, on which the search returns at once). -/
theorem day19_C9_driver_witness :
    part1 ["Blueprint 1: Each ore robot costs 1 ore. Each clay robot costs 1 ore. Each obsidian robot costs 1 ore and 0 clay. Each geode robot costs 1 ore and 1 obsidian.",
        "Blueprint 2: Each ore robot costs 1 ore. Each clay robot costs 1 ore. Each obsidian robot costs 1 ore and 0 clay. Each geode robot costs 1 ore and 1 obsidian.",
        "Blueprint 3: Each ore robot costs 1 ore. Each clay robot costs 1 ore. Each obsidian robot costs 1 ore and 0 clay. Each geode robot costs 1 ore and 1 obsidian."] =
      some (part1Spec [⟨1, 1, 1, 1, 0, 1, 1⟩, ⟨2, 1, 1, 1, 0, 1, 1⟩, ⟨3, 1, 1, 1, 0, 1, 1⟩]) ∧
    part2 ["Blueprint 1: Each ore robot costs 1 ore. Each clay robot costs 1 ore. Each obsidian robot costs 1 ore and 0 clay. Each geode robot costs 1 ore and 1 obsidian.",
        "Blueprint 2: Each ore robot costs 1 ore. Each clay robot costs 1 ore. Each obsidian robot costs 1 ore and 0 clay. Each geode robot costs 1 ore and 1 obsidian.",
        "Blueprint 3: Each ore robot costs 1 ore. Each clay robot costs 1 ore. Each obsidian robot costs 1 ore and 0 clay. Each geode robot costs 1 ore and 1 obsidian."] =
      some (part2Spec [⟨1, 1, 1, 1, 0, 1, 1⟩, ⟨2, 1, 1, 1, 0, 1, 1⟩, ⟨3, 1, 1, 1, 0, 1, 1⟩]) :=
  ⟨(day19_C9_driver _ _ (by decide)).1,
    (day19_C9_driver _ _ (by decide)).2 (by decide)⟩

/-- Witness for the amended C4: the zero-cost geode robot of the blueprint
with costs 4, 2, 3, 14, 0, 0 is affordable from an empty stock, and when the
search selects the geode target at time 5 with one obsidian robot owned, the
build is committed with no waiting. -/
theorem day19_C4_geode_built_immediately_witness :
    timeTaken (getRobotCosts 4 2 3 14 0 0) ⟨0, 0, 0, 0⟩ ⟨1, 0, 1, 0⟩ .geode = 0 ∧
      canBuildInTime (getRobotCosts 4 2 3 14 0 0) 5 ⟨0, 0, 0, 0⟩ ⟨1, 0, 1, 0⟩ .geode = true ∧
      entersBuildBranch (getRobotCosts 4 2 3 14 0 0) 5 ⟨0, 0, 0, 0⟩ ⟨1, 0, 1, 0⟩ .geode 0 = true :=
  day19_C4_geode_built_immediately_when_chosen (getRobotCosts 4 2 3 14 0 0) 5
    ⟨0, 0, 0, 0⟩ ⟨1, 0, 1, 0⟩ 0 (by decide) (by decide) (by decide) (by decide)

end Day19
